import Mathlib

/-!
# The `walker` package: pipelines, tar traversal, disk callback, content access

A shallow embedding of `walk.go`, `checker.go`, `common.go`, `file_diskfile.go`
and `file_tarfile.go`.

* Go strings and byte slices are lists of bytes.
* A Go `error` is `Option Err`; `none` is `nil`.  The package compares errors
  with `==`, so the two sentinel values, `filepath.SkipDir` and `io.EOF` are
  distinct constructors.
* Caller-supplied callbacks are Go closures and may have side effects: they are
  state transformers over a caller state `σ`.
* Every function that invokes callbacks also returns the list of invocations it
  made, in order, each with the value the callback returned (`Event`).
-/

namespace Walker

/-! ## Strings, errors, file metadata -/

/-- A Go string (or byte slice): a sequence of bytes. -/
abbrev GoString := List UInt8

/-- The bytes of an ASCII literal. -/
def gostr (s : String) : GoString := s.toList.map (fun c => c.toNat.toUInt8)

/-- Go error values that the package tells apart with `==`. -/
inductive Err where
  /-- `ErrCheckFail = errors.New("fail")` (checker.go). -/
  | ErrCheckFail
  /-- `ErrCheckSkipDir = errors.New("skip dir")` (checker.go). -/
  | ErrCheckSkipDir
  /-- `filepath.SkipDir`. -/
  | SkipDir
  /-- `io.EOF`. -/
  | EOF
  /-- Any other error value, told apart by its identity. -/
  | custom (id : Nat)
  /-- `errors.New(msg)` at a place of the package that builds a fresh error. -/
  | new (msg : String)
  /-- `errors.Wrap(cause, msg)` of pkg/errors, for a non-nil `cause`. -/
  | wrap (cause : Err) (msg : String)
  deriving DecidableEq, Repr

/-- A Go value of type `error`; `none` is `nil`. -/
abbrev error := Option Err

/-- The type bits of `os.FileMode`; the permission bits are kept as a number. -/
structure FileMode where
  dir : Bool := false
  symlink : Bool := false
  namedPipe : Bool := false
  socket : Bool := false
  device : Bool := false
  charDevice : Bool := false
  irregular : Bool := false
  perm : Nat := 0
  deriving DecidableEq, Repr

/-- `m.IsDir()`: `m&ModeDir != 0`. -/
def FileMode.IsDir (m : FileMode) : Bool := m.dir

/-- `m.IsRegular()`: `m&ModeType == 0`, with `ModeType = ModeDir | ModeSymlink |
ModeNamedPipe | ModeSocket | ModeDevice | ModeCharDevice | ModeIrregular`. -/
def FileMode.IsRegular (m : FileMode) : Bool :=
  !(m.dir || m.symlink || m.namedPipe || m.socket || m.device || m.charDevice || m.irregular)

/-- The part of `os.FileInfo` the package reads. -/
structure FileInfo where
  Name : GoString
  Size : Nat
  Mode : FileMode
  deriving DecidableEq, Repr

/-- `fi.IsDir()`, which is `fi.Mode().IsDir()`. -/
def FileInfo.IsDir (fi : FileInfo) : Bool := fi.Mode.IsDir

/-! ## Readers and the two kinds of entry -/

/-- An `io.Reader` positioned in one section of a stream: the bytes not yet read,
the error it reports once they are drained (`none`: a clean end of the section),
and the number of `ReadAll` calls made on it so far. -/
structure Reader where
  remaining : GoString
  fault : error := none
  reads : Nat := 0
  deriving DecidableEq, Repr

/-- The part of `tar.Header` the package reads; `fileInfo` is what
`header.FileInfo()` returns. -/
structure Header where
  Name : GoString
  fileInfo : FileInfo
  deriving DecidableEq, Repr

/-- The struct `tarfile` of file_tarfile.go.  `reader` is the shared `*tar.Reader`
as it stands when the entry is built: positioned at the start of the entry's
section. -/
structure tarfile where
  reader : Reader
  header : Header
  deriving DecidableEq, Repr

/-- The struct `diskfile` of file_diskfile.go. -/
structure diskfile where
  path : GoString
  info : FileInfo
  deriving DecidableEq, Repr

/-- The interface `File` with its two implementations. -/
inductive File where
  | disk (f : diskfile)
  | tar (f : tarfile)
  deriving DecidableEq, Repr

/-- `f.Path()`. -/
def File.Path : File → GoString
  | .disk f => f.path
  | .tar f => f.header.Name

/-- `f.FileInfo()`. -/
def File.FileInfo : File → FileInfo
  | .disk f => f.info
  | .tar f => f.header.fileInfo

/-- `NewTarFile(reader, header)`: fails when the reader or the header is nil. -/
def NewTarFile (reader : Option Reader) (header : Option Header) : Except Err File :=
  match reader, header with
  | some r, some h => .ok (File.tar { reader := r, header := h })
  | _, _ => .error (Err.new "tar reader or header is nil")

/-- `NewDiskFile(path, info)`: a nil `info` is replaced by `os.Lstat(path)`, whose
failure is returned. -/
def NewDiskFile (lstat : GoString → Except Err FileInfo) (path : GoString)
    (info : Option FileInfo) : Except Err File :=
  match info with
  | some fi => .ok (File.disk { path := path, info := fi })
  | none =>
    match lstat path with
    | .error e => .error e
    | .ok fi => .ok (File.disk { path := path, info := fi })

/-! ## checker.go -/

/-- `strings.HasPrefix(s, sub)`. -/
def stringsHasPrefix (s sub : GoString) : Bool := sub.isPrefixOf s

/-- `strings.HasSuffix(s, sub)`. -/
def stringsHasSuffix (s sub : GoString) : Bool := sub.isSuffixOf s

/-- The loop of `hasAnySubs`: nil at the first candidate that matches, `ErrCheckFail`
when the candidates run out. -/
def hasAnySubs.loop (has : GoString → GoString → Bool) (path : GoString) :
    List GoString → error
  | [] => some Err.ErrCheckFail
  | sub :: rest => if has path sub then none else hasAnySubs.loop has path rest

/-- `hasAnySubs(has, subs...)`. -/
def hasAnySubs (has : GoString → GoString → Bool) (subs : List GoString) (f : File) : error :=
  if subs.length = 0 then none else hasAnySubs.loop has f.Path subs

/-- `hasAllSubs(has, subs...)`. -/
def hasAllSubs (has : GoString → GoString → Bool) (subs : List GoString) (f : File) : error :=
  match subs with
  | [] => none
  | sub :: rest => if !has f.Path sub then some Err.ErrCheckFail else hasAllSubs has rest f

/-- `HasAnyPrefix(prefixes...)`. -/
def HasAnyPrefix (prefixes : List GoString) : File → error :=
  hasAnySubs stringsHasPrefix prefixes

/-- `HasPrefix(p)`. -/
def HasPrefix (p : GoString) : File → error := HasAnyPrefix [p]

/-- `HasAllPrefix(prefixes...)`. -/
def HasAllPrefix (prefixes : List GoString) : File → error :=
  hasAllSubs stringsHasPrefix prefixes

/-- `HasAnySuffix(suffixes...)`. -/
def HasAnySuffix (suffixes : List GoString) : File → error :=
  hasAnySubs stringsHasSuffix suffixes

/-- `HasSuffix(p)`. -/
def HasSuffix (p : GoString) : File → error := HasAnySuffix [p]

/-- `HasAllSuffix(suffixes...)`. -/
def HasAllSuffix (suffixes : List GoString) : File → error :=
  hasAllSubs stringsHasSuffix suffixes

/-- `IsRegular()`. -/
def IsRegular (f : File) : error :=
  if !f.FileInfo.Mode.IsRegular then some Err.ErrCheckFail else none

/-- The byte `/`. -/
def slash : UInt8 := 47

/-- `path.Base(p)`: `"."` for the empty path; otherwise trailing slashes are
stripped, what follows the last remaining slash is kept, and a path that is
empty by then (it held only slashes) gives `"/"`. -/
def pathBase (p : GoString) : GoString :=
  if p = [] then gostr "."
  else
    let stripped := p.rdropWhile (fun b => b == slash)
    let last := stripped.rtakeWhile (fun b => b != slash)
    if last = [] then gostr "/" else last

/-- `SkipDir(dirname)`. -/
def SkipDir (dirname : GoString) (f : File) : error :=
  if f.FileInfo.IsDir && pathBase f.Path == dirname then some Err.ErrCheckSkipDir else none

/-! ## walk.go: the pipelines -/

/-- One invocation of a caller-supplied callback, with the value it returned, or
one call of `tr.Next()`, with the header and error it returned. -/
inductive Event where
  /-- The checker registered at position `i` was called on `f` and returned `r`. -/
  | check (i : Nat) (f : File) (r : error)
  /-- The visitor registered at position `i` was called on `f` and returned `r`. -/
  | visit (i : Nat) (f : File) (r : error)
  /-- The error filter registered at position `i` was called with
  `(pathname, err)` and returned `r`. -/
  | filter (i : Nat) (pathname : GoString) (err : error) (r : error)
  /-- A call of `tr.Next()` returned `(hdr, err)`. -/
  | next (hdr : Option Header) (err : error)
  deriving DecidableEq, Repr

/-- `type Checker func(f File) (err error)`, a closure over caller state. -/
abbrev Checker (σ : Type) := File → σ → error × σ

/-- `type Visiter func(f File) error`, a closure over caller state. -/
abbrev Visiter (σ : Type) := File → σ → error × σ

/-- `type ErrorFilter func(pathname string, err error) error`, a closure over
caller state. -/
abbrev ErrorFilter (σ : Type) := GoString → error → σ → error × σ

/-- A built-in checker of checker.go as a registered `Checker`: it reads no
caller state and leaves it alone. -/
def Checker.ofPure {σ : Type} (c : File → error) : Checker σ := fun f s => (c f, s)

/-- The struct `walk`.  `ctx k s` tells whether `w.ctx.Done()` is found closed by
the `select` that opens iteration `k` of the tar loop, the caller state being
`s`: cancellation may come from a callback or from another goroutine. -/
structure walk (σ : Type) where
  ctx : Nat → σ → Bool
  checkers : List (Checker σ)
  visiters : List (Visiter σ)
  errorFilters : List (ErrorFilter σ)

/-- The loop of `handleChecker`, from registration position `i` on. -/
def handleChecker.loop {σ : Type} (f : File) :
    Nat → List (Checker σ) → σ → error × σ × List Event
  | _, [], s => (none, s, [])
  | i, checker :: rest, s =>
    match checker f s with
    | (some err, s1) => (some err, s1, [Event.check i f (some err)])
    | (none, s1) =>
      match handleChecker.loop f (i + 1) rest s1 with
      | (r, s2, log) => (r, s2, Event.check i f none :: log)

/-- `w.handleChecker(f)`. -/
def handleChecker {σ : Type} (w : walk σ) (f : File) (s : σ) : error × σ × List Event :=
  handleChecker.loop f 0 w.checkers s

/-- The loop of `handleVisiters`, from registration position `i` on. -/
def handleVisiters.loop {σ : Type} (f : File) :
    Nat → List (Visiter σ) → σ → error × σ × List Event
  | _, [], s => (none, s, [])
  | i, visiter :: rest, s =>
    match visiter f s with
    | (some err, s1) => (some err, s1, [Event.visit i f (some err)])
    | (none, s1) =>
      match handleVisiters.loop f (i + 1) rest s1 with
      | (r, s2, log) => (r, s2, Event.visit i f none :: log)

/-- `w.handleVisiters(f)`. -/
def handleVisiters {σ : Type} (w : walk σ) (f : File) (s : σ) : error × σ × List Event :=
  handleVisiters.loop f 0 w.visiters s

/-- The loop of `handleErrorFilters`, from registration position `i` on: every
filter is called with the same `(pathname, err)`, since the `err` declared by the
`if` statement is out of scope in its own initialiser and in the next iteration. -/
def handleErrorFilters.loop {σ : Type} (pathname : GoString) (err : error) :
    Nat → List (ErrorFilter σ) → σ → error × σ × List Event
  | _, [], s => (err, s, [])
  | i, filter :: rest, s =>
    match filter pathname err s with
    | (none, s1) => (none, s1, [Event.filter i pathname err none])
    | (some e, s1) =>
      match handleErrorFilters.loop pathname err (i + 1) rest s1 with
      | (r, s2, log) => (r, s2, Event.filter i pathname err (some e) :: log)

/-- `w.handleErrorFilters(pathname, err)`. -/
def handleErrorFilters {σ : Type} (w : walk σ) (pathname : GoString) (err : error) (s : σ) :
    error × σ × List Event :=
  handleErrorFilters.loop pathname err 0 w.errorFilters s

/-! ## walk.go: the callback given to the directory-walk backend -/

/-- The closure `walkFn` built in `WalkDir`. -/
def walkFn {σ : Type} (w : walk σ) (lstat : GoString → Except Err FileInfo)
    (pathname : GoString) (fi : Option FileInfo) (s : σ) : error × σ × List Event :=
  match NewDiskFile lstat pathname fi with
  | .error err => (some err, s, [])
  | .ok f =>
    match handleChecker w f s with
    | (some err, s1, l1) =>
      if err = Err.ErrCheckSkipDir then (some Err.SkipDir, s1, l1) else (none, s1, l1)
    | (none, s1, l1) =>
      match handleVisiters w f s1 with
      | (some err, s2, l2) => (some err, s2, l1 ++ l2)
      | (none, s2, l2) => (none, s2, l1 ++ l2)

/-- The closure `errFn` built in `WalkDir`. -/
def errFn {σ : Type} (w : walk σ) (pathname : GoString) (err : error) (s : σ) :
    error × σ × List Event :=
  handleErrorFilters w pathname err s

/-! ## walk.go: the tar loop -/

/-- One entry of a tar stream: its header, the bytes of its section, and the
error a read of the section ends with (`none`: a clean end). -/
structure TarEntry where
  header : Header
  data : GoString
  fault : error := none
  deriving DecidableEq, Repr

/-- What a `tar.Reader` yields: the entries in stream order, then `io.EOF`
(`failure = none`) or a read failure. -/
structure TarStream where
  entries : List TarEntry
  failure : error := none
  deriving DecidableEq, Repr

/-- The reader `tr` right after `tr.Next()` returned the header of `ent`. -/
def TarEntry.reader (ent : TarEntry) : Reader := { remaining := ent.data, fault := ent.fault }

/-- How one iteration of the loop of `WalkTarReader` ends. -/
inductive Ctl where
  /-- `continue`, or the end of the loop body, with the value of `pathsToSkip`. -/
  | next (pathsToSkip : List GoString)
  /-- `return err`. -/
  | exit (err : error)
  deriving DecidableEq, Repr

/-- The body of the loop of `WalkTarReader` from `NewTarFile(tr, hdr)` on, after
`tr.Next()` returned `(hdr, nil)`. -/
def WalkTarReader.body {σ : Type} (w : walk σ) (pathsToSkip : List GoString)
    (tr : Option Reader) (hdr : Option Header) (s : σ) : Ctl × σ × List Event :=
  match NewTarFile tr hdr with
  | .error err => (Ctl.exit (some err), s, [])
  | .ok f =>
    if (HasAnyPrefix pathsToSkip f).isSome then (Ctl.next pathsToSkip, s, [])
    else
      match handleChecker w f s with
      | (some err, s1, l1) =>
        if err = Err.ErrCheckSkipDir then (Ctl.next (pathsToSkip ++ [f.Path]), s1, l1)
        else (Ctl.next pathsToSkip, s1, l1)
      | (none, s1, l1) =>
        match handleVisiters w f s1 with
        | (none, s2, l2) => (Ctl.next pathsToSkip, s2, l1 ++ l2)
        | (some err, s2, l2) =>
          match handleErrorFilters w f.Path (some err) s2 with
          | (none, s3, l3) => (Ctl.next pathsToSkip, s3, l1 ++ l2 ++ l3)
          | (some _, s3, l3) => (Ctl.exit (some err), s3, l1 ++ l2 ++ l3)

/-- The loop of `WalkTarReader`: `k` counts the iterations made so far, and the
list holds the entries `tr` has not yielded yet. -/
def WalkTarReader.loop {σ : Type} (w : walk σ) (failure : error) :
    Nat → List GoString → List TarEntry → σ → error × σ × List Event
  | k, _, [], s =>
    if w.ctx k s then (none, s, [])
    else
      let err := failure.getD Err.EOF
      if err = Err.EOF then (none, s, [Event.next none (some err)])
      else (some (Err.wrap err "fail to read the tarball"), s, [Event.next none (some err)])
  | k, pathsToSkip, ent :: rest, s =>
    if w.ctx k s then (none, s, [])
    else
      match WalkTarReader.body w pathsToSkip (some ent.reader) (some ent.header) s with
      | (Ctl.exit err, s1, l1) => (err, s1, Event.next (some ent.header) none :: l1)
      | (Ctl.next pathsToSkip1, s1, l1) =>
        match WalkTarReader.loop w failure (k + 1) pathsToSkip1 rest s1 with
        | (r, s2, l2) => (r, s2, Event.next (some ent.header) none :: (l1 ++ l2))

/-- `w.WalkTarReader(r)`, for a reader `r` whose tar decoding is `stream`. -/
def WalkTarReader {σ : Type} (w : walk σ) (stream : TarStream) (s : σ) :
    error × σ × List Event :=
  WalkTarReader.loop w stream.failure 0 [] stream.entries s

/-! ## common.go and the content accessors -/

/-- `ioutil.ReadAll(r)`: everything left in the section, and the error the read
ended with (`io.EOF` is not reported); the section is drained. -/
def ReadAll (r : Reader) : (GoString × error) × Reader :=
  ((r.remaining, r.fault), { r with remaining := [], reads := r.reads + 1 })

/-- The file system as `ioutil.ReadFile` sees it, and the number of `ReadFile`
calls made so far. -/
structure Disk where
  content : GoString → Except Err GoString
  reads : Nat := 0

/-- `ioutil.ReadFile(filePath)`. -/
def ReadFile (d : Disk) (filePath : GoString) : (GoString × error) × Disk :=
  match d.content filePath with
  | .ok b => ((b, none), { d with reads := d.reads + 1 })
  | .error e => (([], some e), { d with reads := d.reads + 1 })

/-- The variables captured by the closure that `fileOnceOpener` or
`tarOnceOpener` returns: whether its `sync.Once` has run, `b` and `err`. -/
structure onceOpener where
  done : Bool := false
  b : GoString := []
  err : error := none
  deriving DecidableEq, Repr

/-- `tarOnceOpener(r)`: a closure with a `sync.Once` of its own that has not run. -/
def tarOnceOpener : onceOpener := {}

/-- One call of a closure returned by `tarOnceOpener(r)`, the reader `r` being
in state `rd`. -/
def tarOnceOpener.call (o : onceOpener) (rd : Reader) : (GoString × error) × onceOpener × Reader :=
  let st : onceOpener × Reader :=
    if o.done then (o, rd)
    else ({ done := true, b := (ReadAll rd).1.1, err := (ReadAll rd).1.2 }, (ReadAll rd).2)
  match st.1.err with
  | some e => (([], some (Err.wrap e "unable to read tar file")), st.1, st.2)
  | none => ((st.1.b, none), st.1, st.2)

/-- `fileOnceOpener(filePath)`: a closure with a `sync.Once` of its own that has
not run. -/
def fileOnceOpener : onceOpener := {}

/-- One call of a closure returned by `fileOnceOpener(filePath)`. -/
def fileOnceOpener.call (filePath : GoString) (o : onceOpener) (d : Disk) :
    (GoString × error) × onceOpener × Disk :=
  let st : onceOpener × Disk :=
    if o.done then (o, d)
    else ({ done := true, b := (ReadFile d filePath).1.1, err := (ReadFile d filePath).1.2 },
          (ReadFile d filePath).2)
  match st.1.err with
  | some e => (([], some (Err.wrap e "unable to read file")), st.1, st.2)
  | none => ((st.1.b, none), st.1, st.2)

/-- `f.Opener()` of a `tarfile`: `tarOnceOpener(f.reader)`, a new closure at
every call. -/
def tarfile.Opener (_f : tarfile) : onceOpener := tarOnceOpener

/-- `f.Opener()` of a `diskfile`: `fileOnceOpener(f.path)`, a new closure at
every call. -/
def diskfile.Opener (_f : diskfile) : onceOpener := fileOnceOpener

/-- A `hash.Hash`: the bytes written to it so far, the digest its algorithm
gives to a byte sequence, and the error its `Write` returns (nil for every hash
that keeps the contract of `hash.Hash`). -/
structure Hash where
  written : GoString := []
  algorithm : GoString → GoString
  writeErr : GoString → error := fun _ => none

/-- `h.Write(p)`. -/
def Hash.Write (h : Hash) (p : GoString) : error × Hash :=
  match h.writeErr p with
  | some e => (some e, h)
  | none => (none, { h with written := h.written ++ p })

/-- `h.Sum(nil)`. -/
def Hash.Sum (h : Hash) : GoString := h.algorithm h.written

/-- The table `hextable` of encoding/hex. -/
def hextable : GoString := gostr "0123456789abcdef"

/-- `hex.EncodeToString(src)`: two characters of `hextable` for each byte, the
high half first. -/
def hexEncodeToString : GoString → GoString
  | [] => []
  | v :: rest =>
    hextable.getD (v >>> 4).toNat 0 :: hextable.getD (v &&& 0x0f).toNat 0 ::
      hexEncodeToString rest

/-- `calcBytesHash(h, opener)`, for an opener that acts on a state `ω`. -/
def calcBytesHash {ω : Type} (h : Hash) (opener : ω → (GoString × error) × ω) (world : ω) :
    (GoString × error) × Hash × ω :=
  match opener world with
  | ((_, some err), world1) => (([], some err), h, world1)
  | ((content, none), world1) =>
    match h.Write content with
    | (some err, h1) => (([], some err), h1, world1)
    | (none, h1) => ((hexEncodeToString h1.Sum, none), h1, world1)

/-- `f.Hash(h)` of a `tarfile`: `calcBytesHash(h, f.Opener())`, the shared reader
being in state `rd`. -/
def tarfile.Hash (f : tarfile) (h : Hash) (rd : Reader) : (GoString × error) × Hash × Reader :=
  match calcBytesHash h (fun st : onceOpener × Reader =>
      ((tarOnceOpener.call st.1 st.2).1, (tarOnceOpener.call st.1 st.2).2)) (f.Opener, rd) with
  | (r, h1, st) => (r, h1, st.2)

/-- `f.Hash(h)` of a `diskfile`: `calcBytesHash(h, f.Opener())`. -/
def diskfile.Hash (f : diskfile) (h : Hash) (d : Disk) : (GoString × error) × Hash × Disk :=
  match calcBytesHash h (fun st : onceOpener × Disk =>
      ((fileOnceOpener.call f.path st.1 st.2).1, (fileOnceOpener.call f.path st.1 st.2).2))
      (f.Opener, d) with
  | (r, h1, st) => (r, h1, st.2)

/-! ## walk.go: construction and registration -/

/-- `NewWithContext(ctx)`: a walk with three empty pipelines; `ctx` is how the
walk will observe the cancellation of its context. -/
def NewWithContext {σ : Type} (ctx : Nat → σ → Bool) : walk σ :=
  { ctx := ctx, checkers := [], visiters := [], errorFilters := [] }

/-- `w.OnVisit(fn)`; a nil `fn` is `none`. -/
def walk.OnVisit {σ : Type} (w : walk σ) (fn : Option (Visiter σ)) : walk σ :=
  match fn with
  | some v => { w with visiters := w.visiters ++ [v] }
  | none => w

/-- `w.Check(fn)`; a nil `fn` is `none`. -/
def walk.Check {σ : Type} (w : walk σ) (fn : Option (Checker σ)) : walk σ :=
  match fn with
  | some c => { w with checkers := w.checkers ++ [c] }
  | none => w

/-- `w.FilterError(fn)`; a nil `fn` is `none`. -/
def walk.FilterError {σ : Type} (w : walk σ) (fn : Option (ErrorFilter σ)) : walk σ :=
  match fn with
  | some c => { w with errorFilters := w.errorFilters ++ [c] }
  | none => w

/-! ## Vocabulary of the statements -/

/-- Runs every callback of the list, in order and whatever each returns: the
values returned and the caller state reached. -/
def runAll {σ : Type} : List (σ → error × σ) → σ → List error × σ
  | [], s => ([], s)
  | cb :: rest, s => ((cb s).1 :: (runAll rest (cb s).2).1, (runAll rest (cb s).2).2)

/-- The invocations of the checkers at positions `i`, `i + 1`, ... on `f`, which
returned `outs`. -/
def checkLog (f : File) : Nat → List error → List Event
  | _, [] => []
  | i, r :: rs => Event.check i f r :: checkLog f (i + 1) rs

/-- The invocations of the visitors at positions `i`, `i + 1`, ... on `f`, which
returned `outs`. -/
def visitLog (f : File) : Nat → List error → List Event
  | _, [] => []
  | i, r :: rs => Event.visit i f r :: visitLog f (i + 1) rs

/-- The invocations of the error filters at positions `i`, `i + 1`, ... with
`(pathname, err)`, which returned `outs`. -/
def filterLog (pathname : GoString) (err : error) : Nat → List error → List Event
  | _, [] => []
  | i, r :: rs => Event.filter i pathname err r :: filterLog pathname err (i + 1) rs

/-- Whether an event is a call of the checker registered at position `i`. -/
def Event.isCheck (i : Nat) : Event → Bool
  | .check j _ _ => j == i
  | _ => false

/-- Whether an event is a call of the visitor registered at position `i`. -/
def Event.isVisit (i : Nat) : Event → Bool
  | .visit j _ _ => j == i
  | _ => false

/-- The invariant of the calls `log` made for one entry: they all concern one
file `f`; the checker at each position is called at most once and so is the
visitor at each position; if a visitor was called, every registered checker was
called on `f` and returned nil; if a checker returned a non-nil outcome, no
visitor was called. -/
def OncePerEntry {σ : Type} (w : walk σ) (log : List Event) : Prop :=
  ∃ f : File,
    (∀ ev ∈ log, (∃ i r, i < w.checkers.length ∧ ev = Event.check i f r) ∨
      (∃ i r, i < w.visiters.length ∧ ev = Event.visit i f r) ∨
      (∃ i e r, ev = Event.filter i f.Path e r)) ∧
    (∀ i, log.countP (Event.isCheck i) ≤ 1) ∧
    (∀ i, log.countP (Event.isVisit i) ≤ 1) ∧
    ((∃ j r, Event.visit j f r ∈ log) →
      ∀ i, i < w.checkers.length → Event.check i f none ∈ log) ∧
    ((∃ i e, Event.check i f (some e) ∈ log) → ∀ j r, Event.visit j f r ∉ log)

/-- The iterations of the tar loop over `entries` when none of them returns: the
value of `pathsToSkip` and the caller state once the last one ends, and the
calls made; `none` when an iteration returns. -/
def WalkTarReader.scan {σ : Type} (w : walk σ) :
    List GoString → List TarEntry → σ → Option (List GoString × σ × List Event)
  | pathsToSkip, [], s => some (pathsToSkip, s, [])
  | pathsToSkip, ent :: rest, s =>
    match WalkTarReader.body w pathsToSkip (some ent.reader) (some ent.header) s with
    | (Ctl.exit _, _, _) => none
    | (Ctl.next pathsToSkip1, s1, l1) =>
      match WalkTarReader.scan w pathsToSkip1 rest s1 with
      | none => none
      | some (pathsToSkip2, s2, l2) =>
        some (pathsToSkip2, s2, Event.next (some ent.header) none :: (l1 ++ l2))

/-- The entry that `NewTarFile` builds for `ent` once `tr.Next()` has returned
its header. -/
def TarEntry.file (ent : TarEntry) : File :=
  File.tar { reader := ent.reader, header := ent.header }

/-- The entry of an event that is a call of the visitor registered at position
`j`. -/
def Event.visited (j : Nat) : Event → Option File
  | .visit i f _ => if i = j then some f else none
  | _ => none

/-- The calls of `walkFn` that a directory-walk backend makes for the entries it
hands over, in the order it makes them: what each call returns, the caller
state reached and the calls made. -/
def walkFnAll {σ : Type} (w : walk σ) (lstat : GoString → Except Err FileInfo) :
    List (GoString × FileInfo) → σ → List error × σ × List Event
  | [], s => ([], s, [])
  | (pathname, fi) :: rest, s =>
    match walkFn w lstat pathname (some fi) s with
    | (r, s1, l1) =>
      match walkFnAll w lstat rest s1 with
      | (rs, s2, l2) => (r :: rs, s2, l1 ++ l2)

/-- Whether an event is a call of a checker that returned `ErrCheckSkipDir`. -/
def Event.isSkipSubtree : Event → Bool
  | .check _ _ (some Err.ErrCheckSkipDir) => true
  | _ => false

/-- Whether an event is a call of a visitor that returned a non-nil error. -/
def Event.isFailedVisit : Event → Bool
  | .visit _ _ (some _) => true
  | _ => false

/-- The entries that the specification has handed to the visitors: the entries
of the stream, in stream order and each once, on which the checker pipeline
returns nil.  The checkers of an entry, and its visitors when it is handed to
them, have acted on the caller state when the next entry is considered. -/
def proceedingEntries {σ : Type} (w : walk σ) : List TarEntry → σ → List File
  | [], _ => []
  | ent :: rest, s =>
    if (handleChecker w ent.file s).1 = none then
      ent.file :: proceedingEntries w rest
        (handleVisiters w ent.file (handleChecker w ent.file s).2.1).2.1
    else proceedingEntries w rest (handleChecker w ent.file s).2.1

/-! ## Concrete streams and walks -/

/-- A directory entry of a tar stream. -/
def dirEntry (name : String) : TarEntry :=
  { header := { Name := gostr name,
                fileInfo := { Name := pathBase (gostr name), Size := 0,
                              Mode := { dir := true, perm := 493 } } },
    data := [] }

/-- A regular-file entry of a tar stream with the given content. -/
def fileEntry (name : String) (content : String) : TarEntry :=
  { header := { Name := gostr name,
                fileInfo := { Name := pathBase (gostr name), Size := (gostr content).length,
                              Mode := { perm := 493 } } },
    data := gostr content }

/-- The stream `d0/skips/d3/skip` (a directory), `d0/skips/d3/skip/f5`,
`d0/skips/d3/z2`, in this order, as in the fixture of walk_setup_test.go. -/
def skipStream : TarStream :=
  { entries := [dirEntry "d0/skips/d3/skip", fileEntry "d0/skips/d3/skip/f5" "f5",
                fileEntry "d0/skips/d3/z2" "z2"] }

/-- A visitor that appends the path of the entry to the caller state, as the
visitor of `TestWalkDir` does, and never fails. -/
def recordPath : Visiter (List GoString) := fun f s => (none, s ++ [f.Path])

/-- The walk `New().Check(SkipDir("skip")).OnVisit(recordPath)`, never cancelled. -/
def skipWalk : walk (List GoString) :=
  { ctx := fun _ _ => false,
    checkers := [Checker.ofPure (SkipDir (gostr "skip"))],
    visiters := [recordPath],
    errorFilters := [] }

/-- A visitor that always fails with `e`. -/
def failingVisiter {σ : Type} (e : Err) : Visiter σ := fun _ s => (some e, s)

/-- An error filter that always returns nil. -/
def suppressAll {σ : Type} : ErrorFilter σ := fun _ _ s => (none, s)

/-- The walk `New().OnVisit(failingVisiter e).FilterError(suppressAll)`, never
cancelled. -/
def failWalk (e : Err) : walk Unit :=
  { ctx := fun _ _ => false,
    checkers := [],
    visiters := [failingVisiter e],
    errorFilters := [suppressAll] }

/-- A one-byte checksum: the sum of the bytes modulo 256. -/
def sum8 : Hash := { algorithm := fun bs => [bs.foldl (fun a b => a + b) 0] }

/-- The archive entry `d0/f1` with the two bytes `f1` as content. -/
def contentEntry : tarfile :=
  { reader := (fileEntry "d0/f1" "f1").reader, header := (fileEntry "d0/f1" "f1").header }

/-- A disk that holds the one file `/d0/f1`, with content `/d0/f1` and a newline
as the test scaffolding writes it. -/
def oneFileDisk : Disk :=
  { content := fun p =>
      if p = gostr "/d0/f1" then .ok (gostr "/d0/f1" ++ [10]) else .error (Err.custom 2) }

/-- The disk entry `/d0/f1`, a regular file. -/
def diskEntry : diskfile :=
  { path := gostr "/d0/f1", info := { Name := gostr "f1", Size := 7, Mode := { perm := 493 } } }

/-- The walk `New().Check(IsRegular()).OnVisit(recordPath)` of `TestWalkDir`,
never cancelled. -/
def regularWalk : walk (List GoString) :=
  ((NewWithContext (fun _ _ => false)).Check (some (Checker.ofPure IsRegular))).OnVisit
    (some recordPath)

/-- A visitor that always returns `filepath.SkipDir`. -/
def skipDirVisiter {σ : Type} : Visiter σ := fun _ s => (some Err.SkipDir, s)

/-- A tar stream whose first header read fails with an I/O error. -/
def brokenStream : TarStream := { entries := [], failure := some (Err.custom 5) }

/-- The file info of a directory. -/
def dirInfo (name : String) : FileInfo :=
  { Name := pathBase (gostr name), Size := 0, Mode := { dir := true, perm := 493 } }

/-- The file info of a regular file. -/
def regInfo (name : String) : FileInfo :=
  { Name := pathBase (gostr name), Size := 0, Mode := { perm := 420 } }

/-- The file info of a symbolic link. -/
def linkInfo (name : String) : FileInfo :=
  { Name := pathBase (gostr name), Size := 0, Mode := { symlink := true, perm := 511 } }

/-- The walk `w` with `IsRegular()` as its only checker. -/
def regularOnly {σ : Type} (w : walk σ) : walk σ :=
  { w with checkers := [Checker.ofPure IsRegular] }

/-- The walk `w` with `IsRegular()` then `SkipDir(name)` as its checkers. -/
def regularThenSkip {σ : Type} (w : walk σ) (name : GoString) : walk σ :=
  { w with checkers := [Checker.ofPure IsRegular, Checker.ofPure (SkipDir name)] }

/-- The walk `w` with `SkipDir(name)` then `IsRegular()` as its checkers. -/
def skipThenRegular {σ : Type} (w : walk σ) (name : GoString) : walk σ :=
  { w with checkers := [Checker.ofPure (SkipDir name), Checker.ofPure IsRegular] }

/-- The stream `d0/a`, `d0/d1` (a directory), `d0/d1/b`, in this order: no entry
is a directory named `skip`. -/
def plainStream : TarStream :=
  { entries := [fileEntry "d0/a" "a", dirEntry "d0/d1", fileEntry "d0/d1/b" "b"] }

/-! ## Theorems: the three pipelines -/

theorem handleChecker_loop_run {σ : Type} (f : File) (cs : List (Checker σ)) :
    ∀ (i : Nat) (s : σ), ∃ k, k ≤ cs.length ∧
      (handleChecker.loop f i cs s).2.1 = (runAll ((cs.take k).map (fun c => c f)) s).2 ∧
      (handleChecker.loop f i cs s).2.2
        = checkLog f i (runAll ((cs.take k).map (fun c => c f)) s).1 ∧
      (((handleChecker.loop f i cs s).1 = none ∧ k = cs.length ∧
          (runAll ((cs.take k).map (fun c => c f)) s).1 = List.replicate k none)
        ∨ ∃ e j, (handleChecker.loop f i cs s).1 = some e ∧ k = j + 1 ∧
          (runAll ((cs.take k).map (fun c => c f)) s).1 = List.replicate j none ++ [some e]) := by
  induction cs with
  | nil => intro i s; exact ⟨0, le_refl _, rfl, rfl, Or.inl ⟨rfl, rfl, rfl⟩⟩
  | cons c rest ih =>
    intro i s
    rcases h : c f s with ⟨r, s1⟩
    cases r with
    | some e =>
      refine ⟨1, by simp, ?_, ?_, Or.inr ⟨e, 0, ?_, rfl, ?_⟩⟩ <;>
        simp [handleChecker.loop, runAll, checkLog, h]
    | none =>
      obtain ⟨k, hk, hs, hl, hr⟩ := ih (i + 1) s1
      refine ⟨k + 1, by simpa using hk, ?_, ?_, ?_⟩
      · simpa [handleChecker.loop, runAll, h] using hs
      · simpa [handleChecker.loop, runAll, checkLog, h] using hl
      · rcases hr with ⟨h1, h2, h3⟩ | ⟨e, j, h1, h2, h3⟩
        · refine Or.inl ⟨?_, by simp [h2], ?_⟩
          · simpa [handleChecker.loop, h] using h1
          · simpa [runAll, h, List.replicate_succ] using h3
        · refine Or.inr ⟨e, j + 1, ?_, by simp [h2], ?_⟩
          · simpa [handleChecker.loop, h] using h1
          · simpa [runAll, h, List.replicate_succ] using h3

theorem handleChecker_loop_nil_iff {σ : Type} (f : File) (cs : List (Checker σ)) :
    ∀ (i : Nat) (s : σ), (handleChecker.loop f i cs s).1 = none ↔
      ∀ r ∈ (runAll (cs.map (fun c => c f)) s).1, r = none := by
  induction cs with
  | nil => intro i s; simp [handleChecker.loop, runAll]
  | cons c rest ih =>
    intro i s
    rcases h : c f s with ⟨r, s1⟩
    cases r with
    | some e => simp [handleChecker.loop, runAll, h]
    | none =>
      have := ih (i + 1) s1
      simp [handleChecker.loop, runAll, h, this]

theorem handleVisiters_loop_run {σ : Type} (f : File) (cs : List (Visiter σ)) :
    ∀ (i : Nat) (s : σ), ∃ k, k ≤ cs.length ∧
      (handleVisiters.loop f i cs s).2.1 = (runAll ((cs.take k).map (fun c => c f)) s).2 ∧
      (handleVisiters.loop f i cs s).2.2
        = visitLog f i (runAll ((cs.take k).map (fun c => c f)) s).1 ∧
      (((handleVisiters.loop f i cs s).1 = none ∧ k = cs.length ∧
          (runAll ((cs.take k).map (fun c => c f)) s).1 = List.replicate k none)
        ∨ ∃ e j, (handleVisiters.loop f i cs s).1 = some e ∧ k = j + 1 ∧
          (runAll ((cs.take k).map (fun c => c f)) s).1 = List.replicate j none ++ [some e]) := by
  induction cs with
  | nil => intro i s; exact ⟨0, le_refl _, rfl, rfl, Or.inl ⟨rfl, rfl, rfl⟩⟩
  | cons c rest ih =>
    intro i s
    rcases h : c f s with ⟨r, s1⟩
    cases r with
    | some e =>
      refine ⟨1, by simp, ?_, ?_, Or.inr ⟨e, 0, ?_, rfl, ?_⟩⟩ <;>
        simp [handleVisiters.loop, runAll, visitLog, h]
    | none =>
      obtain ⟨k, hk, hs, hl, hr⟩ := ih (i + 1) s1
      refine ⟨k + 1, by simpa using hk, ?_, ?_, ?_⟩
      · simpa [handleVisiters.loop, runAll, h] using hs
      · simpa [handleVisiters.loop, runAll, visitLog, h] using hl
      · rcases hr with ⟨h1, h2, h3⟩ | ⟨e, j, h1, h2, h3⟩
        · refine Or.inl ⟨?_, by simp [h2], ?_⟩
          · simpa [handleVisiters.loop, h] using h1
          · simpa [runAll, h, List.replicate_succ] using h3
        · refine Or.inr ⟨e, j + 1, ?_, by simp [h2], ?_⟩
          · simpa [handleVisiters.loop, h] using h1
          · simpa [runAll, h, List.replicate_succ] using h3

theorem handleVisiters_loop_nil_iff {σ : Type} (f : File) (cs : List (Visiter σ)) :
    ∀ (i : Nat) (s : σ), (handleVisiters.loop f i cs s).1 = none ↔
      ∀ r ∈ (runAll (cs.map (fun c => c f)) s).1, r = none := by
  induction cs with
  | nil => intro i s; simp [handleVisiters.loop, runAll]
  | cons c rest ih =>
    intro i s
    rcases h : c f s with ⟨r, s1⟩
    cases r with
    | some e => simp [handleVisiters.loop, runAll, h]
    | none =>
      have := ih (i + 1) s1
      simp [handleVisiters.loop, runAll, h, this]

theorem handleErrorFilters_loop_run {σ : Type} (pathname : GoString) (err : error)
    (fs : List (ErrorFilter σ)) :
    ∀ (i : Nat) (s : σ), ∃ k, k ≤ fs.length ∧
      (handleErrorFilters.loop pathname err i fs s).2.1
        = (runAll ((fs.take k).map (fun c => c pathname err)) s).2 ∧
      (handleErrorFilters.loop pathname err i fs s).2.2
        = filterLog pathname err i (runAll ((fs.take k).map (fun c => c pathname err)) s).1 ∧
      ((∃ pre, (handleErrorFilters.loop pathname err i fs s).1 = none ∧ k = pre.length + 1 ∧
          (runAll ((fs.take k).map (fun c => c pathname err)) s).1 = pre ++ [none] ∧
          ∀ r ∈ pre, r ≠ none)
        ∨ ((handleErrorFilters.loop pathname err i fs s).1 = err ∧ k = fs.length ∧
          ∀ r ∈ (runAll ((fs.take k).map (fun c => c pathname err)) s).1, r ≠ none)) := by
  induction fs with
  | nil => intro i s; exact ⟨0, le_refl _, rfl, rfl, Or.inr ⟨rfl, rfl, by simp [runAll]⟩⟩
  | cons c rest ih =>
    intro i s
    rcases h : c pathname err s with ⟨r, s1⟩
    cases r with
    | none =>
      refine ⟨1, by simp, ?_, ?_, Or.inl ⟨[], ?_, rfl, ?_, by simp⟩⟩ <;>
        simp [handleErrorFilters.loop, runAll, filterLog, h]
    | some e =>
      obtain ⟨k, hk, hs, hl, hr⟩ := ih (i + 1) s1
      refine ⟨k + 1, by simpa using hk, ?_, ?_, ?_⟩
      · simpa [handleErrorFilters.loop, runAll, h] using hs
      · simpa [handleErrorFilters.loop, runAll, filterLog, h] using hl
      · rcases hr with ⟨pre, h1, h2, h3, h4⟩ | ⟨h1, h2, h3⟩
        · refine Or.inl ⟨some e :: pre, ?_, by simp [h2], ?_, ?_⟩
          · simpa [handleErrorFilters.loop, h] using h1
          · simpa [runAll, h] using h3
          · intro r hr
            rcases List.mem_cons.mp hr with rfl | hr
            · simp
            · exact h4 r hr
        · refine Or.inr ⟨?_, by simp [h2], ?_⟩
          · simpa [handleErrorFilters.loop, h] using h1
          · intro r hr
            have hr2 : r = some e ∨ r ∈ (runAll ((rest.take k).map (fun c => c pathname err)) s1).1 := by
              simpa [runAll, h] using hr
            rcases hr2 with rfl | hr2
            · simp
            · exact h3 r hr2

/-- C4: `handleChecker` calls the registered checkers in registration order, one
after the other from position 0: it calls exactly the first `k` of them, each on
`f`, and no other.  Either all of them returned nil and so does `handleChecker`,
or the last one called is the first to return a non-nil outcome, which is what
`handleChecker` returns.  The result is nil exactly when every registered
checker returns nil, so also for the empty pipeline. -/
theorem handleChecker_first_non_proceed {σ : Type} (w : walk σ) (f : File) (s : σ) :
    (∃ k, k ≤ w.checkers.length ∧
      (handleChecker w f s).2.1 = (runAll ((w.checkers.take k).map (fun c => c f)) s).2 ∧
      (handleChecker w f s).2.2
        = checkLog f 0 (runAll ((w.checkers.take k).map (fun c => c f)) s).1 ∧
      (((handleChecker w f s).1 = none ∧ k = w.checkers.length ∧
          (runAll ((w.checkers.take k).map (fun c => c f)) s).1 = List.replicate k none)
        ∨ ∃ e j, (handleChecker w f s).1 = some e ∧ k = j + 1 ∧
          (runAll ((w.checkers.take k).map (fun c => c f)) s).1
            = List.replicate j none ++ [some e])) ∧
    ((handleChecker w f s).1 = none ↔
      ∀ r ∈ (runAll (w.checkers.map (fun c => c f)) s).1, r = none) ∧
    (w.checkers = [] → handleChecker w f s = (none, s, [])) :=
  ⟨handleChecker_loop_run f w.checkers 0 s, handleChecker_loop_nil_iff f w.checkers 0 s,
    fun h => by simp [handleChecker, h, handleChecker.loop]⟩

/-- C5: `handleVisiters` calls the registered visitors in registration order, one
after the other from position 0: it calls exactly the first `k` of them, each on
`f`, and no other.  Either the last one called is the first to fail, and its
failure is the result; or none failed, every registered visitor was called
exactly once, in registration order, and the result is nil. -/
theorem handleVisiters_first_failure {σ : Type} (w : walk σ) (f : File) (s : σ) :
    (∃ k, k ≤ w.visiters.length ∧
      (handleVisiters w f s).2.1 = (runAll ((w.visiters.take k).map (fun v => v f)) s).2 ∧
      (handleVisiters w f s).2.2
        = visitLog f 0 (runAll ((w.visiters.take k).map (fun v => v f)) s).1 ∧
      ((∃ e j, (handleVisiters w f s).1 = some e ∧ k = j + 1 ∧
          (runAll ((w.visiters.take k).map (fun v => v f)) s).1
            = List.replicate j none ++ [some e])
        ∨ ((handleVisiters w f s).1 = none ∧ k = w.visiters.length ∧
          (handleVisiters w f s).2.2
            = visitLog f 0 (List.replicate w.visiters.length none)))) ∧
    ((handleVisiters w f s).1 = none ↔
      ∀ r ∈ (runAll (w.visiters.map (fun v => v f)) s).1, r = none) := by
  refine ⟨?_, handleVisiters_loop_nil_iff f w.visiters 0 s⟩
  obtain ⟨k, hk, hs, hl, hr⟩ := handleVisiters_loop_run f w.visiters 0 s
  refine ⟨k, hk, hs, hl, ?_⟩
  rcases hr with ⟨h1, h2, h3⟩ | ⟨e, j, h1, h2, h3⟩
  · refine Or.inr ⟨h1, h2, ?_⟩
    have hl2 := hl
    rw [h3, h2] at hl2
    exact hl2
  · exact Or.inl ⟨e, j, h1, h2, h3⟩

/-- C6: `handleErrorFilters(pathname, err)` calls the registered error filters in
registration order, one after the other from position 0, each with `(pathname,
err)` for the `err` it was given: it calls exactly the first `k` of them and no
other.  Either the last one called is the first to return nil, and the result is
nil; or all were called, none returned nil, and the result is `err` itself,
whatever errors the filters returned. -/
theorem handleErrorFilters_first_nil {σ : Type} (w : walk σ) (pathname : GoString)
    (err : error) (s : σ) :
    (∃ k, k ≤ w.errorFilters.length ∧
      (handleErrorFilters w pathname err s).2.1
        = (runAll ((w.errorFilters.take k).map (fun c => c pathname err)) s).2 ∧
      (handleErrorFilters w pathname err s).2.2
        = filterLog pathname err 0
            (runAll ((w.errorFilters.take k).map (fun c => c pathname err)) s).1 ∧
      ((∃ pre, (handleErrorFilters w pathname err s).1 = none ∧ k = pre.length + 1 ∧
          (runAll ((w.errorFilters.take k).map (fun c => c pathname err)) s).1 = pre ++ [none] ∧
          ∀ r ∈ pre, r ≠ none)
        ∨ ((handleErrorFilters w pathname err s).1 = err ∧ k = w.errorFilters.length ∧
          ∀ r ∈ (runAll ((w.errorFilters.take k).map (fun c => c pathname err)) s).1,
            r ≠ none))) ∧
    (w.errorFilters = [] → handleErrorFilters w pathname err s = (err, s, [])) :=
  ⟨handleErrorFilters_loop_run pathname err w.errorFilters 0 s,
    fun h => by simp [handleErrorFilters, h, handleErrorFilters.loop]⟩

/-! ## Theorems: at most one evaluation per entry -/

theorem mem_checkLog (f : File) (ev : Event) (outs : List error) :
    ∀ a, ev ∈ checkLog f a outs ↔ ∃ j r, outs[j]? = some r ∧ ev = Event.check (a + j) f r := by
  induction outs with
  | nil => intro a; simp [checkLog]
  | cons o rest ih =>
    intro a
    simp only [checkLog, List.mem_cons, ih]
    constructor
    · rintro (rfl | ⟨j, r, h1, h2⟩)
      · exact ⟨0, o, by simp, rfl⟩
      · exact ⟨j + 1, r, by simpa using h1, by rw [h2]; congr 1; omega⟩
    · rintro ⟨j, r, h1, h2⟩
      cases j with
      | zero => left; simp at h1; subst h1; simpa using h2
      | succ j => right; exact ⟨j, r, by simpa using h1, by rw [h2]; congr 1; omega⟩

theorem mem_visitLog (f : File) (ev : Event) (outs : List error) :
    ∀ a, ev ∈ visitLog f a outs ↔ ∃ j r, outs[j]? = some r ∧ ev = Event.visit (a + j) f r := by
  induction outs with
  | nil => intro a; simp [visitLog]
  | cons o rest ih =>
    intro a
    simp only [visitLog, List.mem_cons, ih]
    constructor
    · rintro (rfl | ⟨j, r, h1, h2⟩)
      · exact ⟨0, o, by simp, rfl⟩
      · exact ⟨j + 1, r, by simpa using h1, by rw [h2]; congr 1; omega⟩
    · rintro ⟨j, r, h1, h2⟩
      cases j with
      | zero => left; simp at h1; subst h1; simpa using h2
      | succ j => right; exact ⟨j, r, by simpa using h1, by rw [h2]; congr 1; omega⟩

theorem mem_filterLog (p : GoString) (e : error) (ev : Event) (outs : List error) :
    ∀ a, ev ∈ filterLog p e a outs → ∃ i r, ev = Event.filter i p e r := by
  induction outs with
  | nil => intro a; simp [filterLog]
  | cons o rest ih =>
    intro a h
    simp only [filterLog, List.mem_cons] at h
    rcases h with rfl | h
    · exact ⟨a, o, rfl⟩
    · exact ih _ h

theorem countP_isCheck_checkLog (f : File) (i : Nat) (outs : List error) :
    ∀ a, (checkLog f a outs).countP (Event.isCheck i)
      = if a ≤ i ∧ i < a + outs.length then 1 else 0 := by
  induction outs with
  | nil => intro a; simp only [checkLog, List.countP_nil, List.length_nil]; split_ifs <;> omega
  | cons o rest ih =>
    intro a
    simp only [checkLog, List.countP_cons, ih, Event.isCheck, List.length_cons, beq_iff_eq]
    split_ifs <;> omega

theorem countP_isVisit_visitLog (f : File) (i : Nat) (outs : List error) :
    ∀ a, (visitLog f a outs).countP (Event.isVisit i)
      = if a ≤ i ∧ i < a + outs.length then 1 else 0 := by
  induction outs with
  | nil => intro a; simp only [visitLog, List.countP_nil, List.length_nil]; split_ifs <;> omega
  | cons o rest ih =>
    intro a
    simp only [visitLog, List.countP_cons, ih, Event.isVisit, List.length_cons, beq_iff_eq]
    split_ifs <;> omega

theorem countP_eq_zero_of_forall {p : Event → Bool} {l : List Event}
    (h : ∀ ev ∈ l, p ev = false) : l.countP p = 0 := by
  rw [List.countP_eq_zero]
  intro ev hev
  simp [h ev hev]

theorem runAll_length {σ : Type} (cbs : List (σ → error × σ)) :
    ∀ s, (runAll cbs s).1.length = cbs.length := by
  induction cbs with
  | nil => intro s; rfl
  | cons cb rest ih => intro s; simp [runAll, ih]

theorem handleChecker_log {σ : Type} (w : walk σ) (f : File) (s : σ) :
    ∃ outs, (handleChecker w f s).2.2 = checkLog f 0 outs ∧ outs.length ≤ w.checkers.length ∧
      ((handleChecker w f s).1 = none → outs = List.replicate w.checkers.length none) := by
  obtain ⟨k, hk, _, hl, hr⟩ := handleChecker_loop_run f w.checkers 0 s
  refine ⟨_, hl, ?_, ?_⟩
  · rw [runAll_length]; simp [hk]
  · intro hn
    rcases hr with ⟨_, h2, h3⟩ | ⟨e, j, h1, _, _⟩
    · rw [h3, h2]
    · rw [handleChecker] at hn; rw [hn] at h1; cases h1

theorem handleVisiters_log {σ : Type} (w : walk σ) (f : File) (s : σ) :
    ∃ outs, (handleVisiters w f s).2.2 = visitLog f 0 outs ∧
      outs.length ≤ w.visiters.length := by
  obtain ⟨k, hk, _, hl, _⟩ := handleVisiters_loop_run f w.visiters 0 s
  refine ⟨_, hl, ?_⟩
  rw [runAll_length]; simp [hk]

theorem handleErrorFilters_log {σ : Type} (w : walk σ) (p : GoString) (e : error) (s : σ) :
    ∃ outs, (handleErrorFilters w p e s).2.2 = filterLog p e 0 outs := by
  obtain ⟨k, _, _, hl, _⟩ := handleErrorFilters_loop_run p e w.errorFilters 0 s
  exact ⟨_, hl⟩

theorem oncePerEntry_of_logs {σ : Type} (w : walk σ) (f : File) (e : error)
    (oc ov ofl : List error) (hc : oc.length ≤ w.checkers.length)
    (hv : ov.length ≤ w.visiters.length)
    (hcv : ov = [] ∨ oc = List.replicate w.checkers.length none) :
    OncePerEntry w (checkLog f 0 oc ++ (visitLog f 0 ov ++ filterLog f.Path e 0 ofl)) := by
  have visit_mem : ∀ j r, Event.visit j f r ∈
      checkLog f 0 oc ++ (visitLog f 0 ov ++ filterLog f.Path e 0 ofl) → ov ≠ [] := by
    intro j r hm hov
    subst hov
    simp only [visitLog, List.nil_append, List.mem_append] at hm
    rcases hm with hm | hm
    · obtain ⟨_, _, _, h⟩ := (mem_checkLog f _ oc 0).mp hm
      cases h
    · obtain ⟨_, _, h⟩ := mem_filterLog _ _ _ _ 0 hm
      cases h
  refine ⟨f, ?_, ?_, ?_, ?_, ?_⟩
  · intro ev hev
    simp only [List.mem_append] at hev
    rcases hev with hev | hev | hev
    · obtain ⟨j, r, h1, h2⟩ := (mem_checkLog f ev oc 0).mp hev
      have hj : j < oc.length := (List.getElem?_eq_some_iff.mp h1).1
      exact Or.inl ⟨0 + j, r, by omega, h2⟩
    · obtain ⟨j, r, h1, h2⟩ := (mem_visitLog f ev ov 0).mp hev
      have hj : j < ov.length := (List.getElem?_eq_some_iff.mp h1).1
      exact Or.inr (Or.inl ⟨0 + j, r, by omega, h2⟩)
    · obtain ⟨i, r, h⟩ := mem_filterLog _ _ _ _ 0 hev
      exact Or.inr (Or.inr ⟨i, e, r, h⟩)
  · intro i
    rw [List.countP_append, List.countP_append, countP_isCheck_checkLog]
    have h1 : (visitLog f 0 ov).countP (Event.isCheck i) = 0 :=
      countP_eq_zero_of_forall (fun ev hev => by
        obtain ⟨_, _, _, h⟩ := (mem_visitLog f ev ov 0).mp hev
        subst h; rfl)
    have h2 : (filterLog f.Path e 0 ofl).countP (Event.isCheck i) = 0 :=
      countP_eq_zero_of_forall (fun ev hev => by
        obtain ⟨_, _, h⟩ := mem_filterLog _ _ _ _ 0 hev
        subst h; rfl)
    rw [h1, h2]
    split_ifs <;> omega
  · intro i
    rw [List.countP_append, List.countP_append, countP_isVisit_visitLog]
    have h1 : (checkLog f 0 oc).countP (Event.isVisit i) = 0 :=
      countP_eq_zero_of_forall (fun ev hev => by
        obtain ⟨_, _, _, h⟩ := (mem_checkLog f ev oc 0).mp hev
        subst h; rfl)
    have h2 : (filterLog f.Path e 0 ofl).countP (Event.isVisit i) = 0 :=
      countP_eq_zero_of_forall (fun ev hev => by
        obtain ⟨_, _, h⟩ := mem_filterLog _ _ _ _ 0 hev
        subst h; rfl)
    rw [h1, h2]
    split_ifs <;> omega
  · rintro ⟨j, r, hm⟩ i hi
    have hov := visit_mem j r hm
    have hoc : oc = List.replicate w.checkers.length none := by
      rcases hcv with h | h
      · exact absurd h hov
      · exact h
    apply List.mem_append_left
    rw [mem_checkLog]
    refine ⟨i, none, ?_, by simp⟩
    rw [hoc]
    simp [List.getElem?_replicate, hi]
  · rintro ⟨i, e', hm⟩ j r hv'
    have hov := visit_mem j r hv'
    have hoc : oc = List.replicate w.checkers.length none := by
      rcases hcv with h | h
      · exact absurd h hov
      · exact h
    simp only [List.mem_append] at hm
    rcases hm with hm | hm | hm
    · obtain ⟨k, r', h1, h2⟩ := (mem_checkLog f _ oc 0).mp hm
      rw [hoc] at h1
      have := (List.getElem?_eq_some_iff.mp h1).2
      simp at this
      injection h2 with _ _ h3
      rw [← this] at h3
      cases h3
    · obtain ⟨_, _, _, h⟩ := (mem_visitLog f _ ov 0).mp hm
      cases h
    · obtain ⟨_, _, h⟩ := mem_filterLog _ _ _ _ 0 hm
      cases h

theorem oncePerEntry_nil {σ : Type} (w : walk σ) : OncePerEntry w [] := by
  have h := oncePerEntry_of_logs w (File.disk ⟨[], ⟨[], 0, {}⟩⟩) none [] [] []
    (Nat.zero_le _) (Nat.zero_le _) (Or.inl rfl)
  simpa [checkLog, visitLog, filterLog] using h

theorem oncePerEntry_checks {σ : Type} (w : walk σ) (f : File) (s : σ) :
    (handleChecker w f s).1 ≠ none → OncePerEntry w (handleChecker w f s).2.2 := by
  intro _
  obtain ⟨oc, hl, hlen, _⟩ := handleChecker_log w f s
  have h := oncePerEntry_of_logs w f none oc [] [] hlen (Nat.zero_le _) (Or.inl rfl)
  simpa [visitLog, filterLog, hl] using h

theorem oncePerEntry_visits {σ : Type} (w : walk σ) (f : File) (s : σ)
    (hc : (handleChecker w f s).1 = none) (s1 : σ) :
    OncePerEntry w ((handleChecker w f s).2.2 ++ (handleVisiters w f s1).2.2) := by
  obtain ⟨oc, hl, hlen, hrep⟩ := handleChecker_log w f s
  obtain ⟨ov, hvl, hvlen⟩ := handleVisiters_log w f s1
  have h := oncePerEntry_of_logs w f none oc ov [] hlen hvlen (Or.inr (hrep hc))
  simpa [filterLog, hl, hvl] using h

theorem oncePerEntry_filters {σ : Type} (w : walk σ) (f : File) (s : σ)
    (hc : (handleChecker w f s).1 = none) (s1 s2 : σ) (e : error) :
    OncePerEntry w ((handleChecker w f s).2.2 ++ (handleVisiters w f s1).2.2
      ++ (handleErrorFilters w f.Path e s2).2.2) := by
  obtain ⟨oc, hl, hlen, hrep⟩ := handleChecker_log w f s
  obtain ⟨ov, hvl, hvlen⟩ := handleVisiters_log w f s1
  obtain ⟨ofl, hfl⟩ := handleErrorFilters_log w f.Path e s2
  have h := oncePerEntry_of_logs w f e oc ov ofl hlen hvlen (Or.inr (hrep hc))
  simpa [hl, hvl, hfl] using h

/-- C3: for the entry handled by one call of the disk callback `walkFn`, and for
the entry handled by one iteration of the loop of `WalkTarReader`, the checker at
each registration position is called at most once and the visitor at each
position at most once; a visitor is called only if every registered checker was
called on the entry and returned nil, and once a checker returns a non-nil
outcome (entry-skip, subtree-skip or any other) no visitor is called. -/
theorem pipelines_once_per_entry {σ : Type} (w : walk σ)
    (lstat : GoString → Except Err FileInfo) (pathname : GoString) (fi : Option FileInfo)
    (pathsToSkip : List GoString) (tr : Option Reader) (hdr : Option Header) (s : σ) :
    OncePerEntry w (walkFn w lstat pathname fi s).2.2 ∧
    OncePerEntry w (WalkTarReader.body w pathsToSkip tr hdr s).2.2 := by
  constructor
  · unfold walkFn
    cases NewDiskFile lstat pathname fi with
    | error err => exact oncePerEntry_nil w
    | ok f =>
      simp only
      rcases hc : handleChecker w f s with ⟨r, s1, l1⟩
      cases r with
      | some err =>
        have h := oncePerEntry_checks w f s (by simp [hc])
        rw [hc] at h
        simp only
        split_ifs <;> exact h
      | none =>
        have h := oncePerEntry_visits w f s (by simp [hc]) s1
        rw [hc] at h
        simp only
        rcases hv : handleVisiters w f s1 with ⟨r2, s2, l2⟩
        rw [hv] at h
        cases r2 <;> exact h
  · unfold WalkTarReader.body
    cases NewTarFile tr hdr with
    | error err => exact oncePerEntry_nil w
    | ok f =>
      simp only
      split_ifs with hp
      · exact oncePerEntry_nil w
      · rcases hc : handleChecker w f s with ⟨r, s1, l1⟩
        cases r with
        | some err =>
          have h := oncePerEntry_checks w f s (by simp [hc])
          rw [hc] at h
          simp only
          split_ifs <;> exact h
        | none =>
          have h := oncePerEntry_visits w f s (by simp [hc]) s1
          rw [hc] at h
          simp only
          rcases hv : handleVisiters w f s1 with ⟨r2, s2, l2⟩
          rw [hv] at h
          cases r2 with
          | none => exact h
          | some err =>
            have h3 := oncePerEntry_filters w f s (by simp [hc]) s1 s2 (some err)
            rw [hc, hv] at h3
            simp only
            rcases hf : handleErrorFilters w f.Path (some err) s2 with ⟨r3, s3, l3⟩
            rw [hf] at h3
            cases r3 <;> exact h3

/-! ## Theorems: the result of the tar walk -/

theorem body_exit_iff {σ : Type} (w : walk σ) (ps : List GoString) (ent : TarEntry) (s : σ)
    (r : error) (s2 : σ) (l2 : List Event) :
    WalkTarReader.body w ps (some ent.reader) (some ent.header) s = (Ctl.exit r, s2, l2) ↔
      HasAnyPrefix ps ent.file = none ∧ (handleChecker w ent.file s).1 = none ∧
      ∃ e, r = some e ∧
        (handleVisiters w ent.file (handleChecker w ent.file s).2.1).1 = some e ∧
        (handleErrorFilters w ent.file.Path (some e)
          (handleVisiters w ent.file (handleChecker w ent.file s).2.1).2.1).1 ≠ none ∧
        s2 = (handleErrorFilters w ent.file.Path (some e)
          (handleVisiters w ent.file (handleChecker w ent.file s).2.1).2.1).2.1 ∧
        l2 = (handleChecker w ent.file s).2.2 ++
          (handleVisiters w ent.file (handleChecker w ent.file s).2.1).2.2 ++
          (handleErrorFilters w ent.file.Path (some e)
            (handleVisiters w ent.file (handleChecker w ent.file s).2.1).2.1).2.2 := by
  unfold WalkTarReader.body
  simp only [NewTarFile, TarEntry.file]
  generalize File.tar { reader := ent.reader, header := ent.header } = f
  by_cases hp : (HasAnyPrefix ps f).isSome = true
  · rw [if_pos hp]
    constructor
    · intro h; cases h
    · rintro ⟨h, _⟩; rw [h] at hp; cases hp
  · rw [if_neg hp]
    have hp2 : HasAnyPrefix ps f = none := by
      cases h : HasAnyPrefix ps f with
      | none => rfl
      | some _ => rw [h] at hp; simp at hp
    rcases hc : handleChecker w f s with ⟨rc, s1, l1⟩
    cases rc with
    | some err =>
      simp only
      constructor
      · intro h; split_ifs at h <;> cases h
      · rintro ⟨_, h, _⟩; cases h
    | none =>
      simp only
      rcases hv : handleVisiters w f s1 with ⟨rv, sv, lv⟩
      cases rv with
      | none =>
        simp only
        constructor
        · intro h; cases h
        · rintro ⟨_, _, e, _, h, _⟩; cases h
      | some err =>
        simp only
        rcases hf : handleErrorFilters w f.Path (some err) sv with ⟨rf, sf, lf⟩
        cases rf with
        | none =>
          simp only
          constructor
          · intro h; cases h
          · rintro ⟨_, _, e, _, h, h2, _⟩
            cases h
            rw [hf] at h2
            exact absurd rfl h2
        | some e2 =>
          simp only
          constructor
          · intro h
            cases h
            refine ⟨hp2, trivial, err, rfl, ?_⟩
            simp [hf]
          · rintro ⟨_, _, e, h1, h2, _, h4, h5⟩
            cases h2
            subst h1
            simp only [hf] at h4 h5
            rw [h4, h5]

theorem loop_cons_exit {σ : Type} (w : walk σ) (hctx : ∀ k s, w.ctx k s = false)
    (failure : error) (k : Nat) (ps : List GoString) (ent : TarEntry) (rest : List TarEntry)
    (s : σ) (r : error) (s2 : σ) (l2 : List Event)
    (hb : WalkTarReader.body w ps (some ent.reader) (some ent.header) s = (Ctl.exit r, s2, l2)) :
    WalkTarReader.loop w failure k ps (ent :: rest) s
      = (r, s2, Event.next (some ent.header) none :: l2) := by
  simp [WalkTarReader.loop, hctx, hb]

theorem loop_cons_next {σ : Type} (w : walk σ) (hctx : ∀ k s, w.ctx k s = false)
    (failure : error) (k : Nat) (ps : List GoString) (ent : TarEntry) (rest : List TarEntry)
    (s : σ) (ps1 : List GoString) (s1 : σ) (l1 : List Event)
    (hb : WalkTarReader.body w ps (some ent.reader) (some ent.header) s
      = (Ctl.next ps1, s1, l1)) :
    WalkTarReader.loop w failure k ps (ent :: rest) s
      = ((WalkTarReader.loop w failure (k + 1) ps1 rest s1).1,
         (WalkTarReader.loop w failure (k + 1) ps1 rest s1).2.1,
         Event.next (some ent.header) none ::
           (l1 ++ (WalkTarReader.loop w failure (k + 1) ps1 rest s1).2.2)) := by
  simp [WalkTarReader.loop, hctx, hb]

theorem loop_of_scan {σ : Type} (w : walk σ) (hctx : ∀ k s, w.ctx k s = false)
    (failure : error) (rest : List TarEntry) (pre : List TarEntry) :
    ∀ (k : Nat) (ps : List GoString) (s : σ) (ps1 : List GoString) (s1 : σ)
      (l1 : List Event), WalkTarReader.scan w ps pre s = some (ps1, s1, l1) →
      WalkTarReader.loop w failure k ps (pre ++ rest) s
        = ((WalkTarReader.loop w failure (k + pre.length) ps1 rest s1).1,
           (WalkTarReader.loop w failure (k + pre.length) ps1 rest s1).2.1,
           l1 ++ (WalkTarReader.loop w failure (k + pre.length) ps1 rest s1).2.2) := by
  induction pre with
  | nil =>
    intro k ps s ps1 s1 l1 h
    simp only [WalkTarReader.scan, Option.some.injEq, Prod.mk.injEq] at h
    obtain ⟨rfl, rfl, rfl⟩ := h
    simp
  | cons ent pre ih =>
    intro k ps s ps1 s1 l1 h
    rcases hb : WalkTarReader.body w ps (some ent.reader) (some ent.header) s with ⟨c, sb, lb⟩
    cases c with
    | exit r => simp [WalkTarReader.scan, hb] at h
    | next psb =>
      simp only [WalkTarReader.scan, hb] at h
      rcases hs : WalkTarReader.scan w psb pre sb with _ | ⟨ps2, s2, l2⟩
      · simp [hs] at h
      · simp only [hs, Option.some.injEq, Prod.mk.injEq] at h
        obtain ⟨rfl, rfl, rfl⟩ := h
        rw [List.cons_append, loop_cons_next w hctx failure k ps ent (pre ++ rest) s psb sb lb hb,
          ih (k + 1) psb sb _ _ _ hs]
        have : k + 1 + pre.length = k + (ent :: pre).length := by simp; omega
        simp [this]

theorem loop_exit_split {σ : Type} (w : walk σ) (hctx : ∀ k s, w.ctx k s = false)
    (entries : List TarEntry) :
    ∀ (k : Nat) (ps : List GoString) (s : σ) (e : Err),
      (WalkTarReader.loop w none k ps entries s).1 = some e →
      ∃ pre ent post ps1 s1 l1 s2 l2, entries = pre ++ ent :: post ∧
        WalkTarReader.scan w ps pre s = some (ps1, s1, l1) ∧
        WalkTarReader.body w ps1 (some ent.reader) (some ent.header) s1
          = (Ctl.exit (some e), s2, l2) := by
  induction entries with
  | nil =>
    intro k ps s e h
    simp [WalkTarReader.loop, hctx] at h
  | cons ent rest ih =>
    intro k ps s e h
    rcases hb : WalkTarReader.body w ps (some ent.reader) (some ent.header) s with ⟨c, sb, lb⟩
    cases c with
    | exit r =>
      rw [loop_cons_exit w hctx none k ps ent rest s r sb lb hb] at h
      simp only at h
      subst h
      exact ⟨[], ent, rest, ps, s, [], sb, lb, rfl, rfl, hb⟩
    | next psb =>
      rw [loop_cons_next w hctx none k ps ent rest s psb sb lb hb] at h
      obtain ⟨pre, ent2, post, ps1, s1, l1, s2, l2, h1, h2, h3⟩ := ih (k + 1) psb sb e h
      refine ⟨ent :: pre, ent2, post, ps1, s1, Event.next (some ent.header) none :: (lb ++ l1),
        s2, l2, by simp [h1], ?_, h3⟩
      simp [WalkTarReader.scan, hb, h2]

theorem loop_of_split {σ : Type} (w : walk σ) (hctx : ∀ k s, w.ctx k s = false)
    (failure : error) (k : Nat) (ps : List GoString) (s : σ) (pre post : List TarEntry)
    (ent : TarEntry) (ps1 : List GoString) (s1 : σ) (l1 : List Event) (r : error) (s2 : σ)
    (l2 : List Event) (hs : WalkTarReader.scan w ps pre s = some (ps1, s1, l1))
    (hb : WalkTarReader.body w ps1 (some ent.reader) (some ent.header) s1
      = (Ctl.exit r, s2, l2)) :
    WalkTarReader.loop w failure k ps (pre ++ ent :: post) s
      = (r, s2, l1 ++ Event.next (some ent.header) none :: l2) := by
  rw [loop_of_scan w hctx failure (ent :: post) pre k ps s ps1 s1 l1 hs,
    loop_cons_exit w hctx failure _ ps1 ent post s1 r s2 l2 hb]

theorem handleErrorFilters_loop_nil_iff {σ : Type} (p : GoString) (e : Err)
    (fs : List (ErrorFilter σ)) :
    ∀ (i : Nat) (s : σ), (handleErrorFilters.loop p (some e) i fs s).1 = none ↔
      ∃ r ∈ (runAll (fs.map (fun c => c p (some e))) s).1, r = none := by
  induction fs with
  | nil => intro i s; simp [handleErrorFilters.loop, runAll]
  | cons c rest ih =>
    intro i s
    rcases h : c p (some e) s with ⟨r, s1⟩
    cases r with
    | none => simp [handleErrorFilters.loop, runAll, h]
    | some e2 =>
      have := ih (i + 1) s1
      simp [handleErrorFilters.loop, runAll, h, this]

theorem handleErrorFilters_ne_none_iff {σ : Type} (w : walk σ) (p : GoString) (e : Err)
    (s : σ) : (handleErrorFilters w p (some e) s).1 ≠ none ↔
      ∀ r ∈ (runAll (w.errorFilters.map (fun c => c p (some e))) s).1, r ≠ none := by
  rw [Ne, handleErrorFilters, handleErrorFilters_loop_nil_iff]
  push_neg
  rfl

theorem handleErrorFilters_head_nil {σ : Type} (w : walk σ) (flt : ErrorFilter σ)
    (rest : List (ErrorFilter σ)) (hw : w.errorFilters = flt :: rest)
    (hflt : ∀ p err s, (flt p err s).1 = none) (p : GoString) (err : error) (s : σ) :
    (handleErrorFilters w p err s).1 = none := by
  rw [handleErrorFilters, hw]
  rcases h : flt p err s with ⟨r, s1⟩
  have := hflt p err s
  rw [h] at this
  simp only at this
  subst this
  simp [handleErrorFilters.loop, h]

theorem handleVisiters_head_fails {σ : Type} (w : walk σ) (v : Visiter σ)
    (vs : List (Visiter σ)) (e0 : Err) (hw : w.visiters = v :: vs)
    (hfail : ∀ f s, (v f s).1 = some e0) (f : File) (s : σ) :
    (handleVisiters w f s).1 = some e0 := by
  rw [handleVisiters, hw]
  rcases h : v f s with ⟨r, s1⟩
  have := hfail f s
  rw [h] at this
  simp only at this
  subst this
  simp [handleVisiters.loop, h]

theorem body_without_filters {σ : Type} (w : walk σ) (v : Visiter σ)
    (vs : List (Visiter σ)) (e0 : Err) (hw : w.visiters = v :: vs)
    (hfail : ∀ f s, (v f s).1 = some e0) (ps : List GoString) (rd : Reader) (hdr : Header)
    (s : σ) :
    (WalkTarReader.body { w with errorFilters := [] } ps (some rd) (some hdr) s).1
        = Ctl.exit (some e0) ∨
      (WalkTarReader.body { w with errorFilters := [] } ps (some rd) (some hdr) s
          = WalkTarReader.body w ps (some rd) (some hdr) s ∧
        (∃ ps1, (WalkTarReader.body w ps (some rd) (some hdr) s).1 = Ctl.next ps1) ∧
        ∀ j f x, Event.visit j f x ∉ (WalkTarReader.body w ps (some rd) (some hdr) s).2.2) := by
  unfold WalkTarReader.body
  simp only [NewTarFile]
  generalize File.tar { reader := rd, header := hdr } = f
  by_cases hp : (HasAnyPrefix ps f).isSome = true
  · right
    simp [hp]
  · simp only [hp]
    have hcw : handleChecker { w with errorFilters := [] } f s = handleChecker w f s := rfl
    rw [hcw]
    obtain ⟨oc, hl, -, -⟩ := handleChecker_log w f s
    rcases hc : handleChecker w f s with ⟨rc, s1, l1⟩
    rw [hc] at hl
    simp only at hl
    cases rc with
    | some err =>
      right
      simp only [Bool.false_eq_true, if_false]
      refine ⟨trivial, ?_, ?_⟩
      · split_ifs <;> exact ⟨_, rfl⟩
      · intro j f2 x hm
        have hm2 : Event.visit j f2 x ∈ l1 := by split_ifs at hm <;> exact hm
        rw [hl] at hm2
        obtain ⟨_, _, _, h⟩ := (mem_checkLog f _ oc 0).mp hm2
        cases h
    | none =>
      left
      simp only [Bool.false_eq_true, if_false]
      have hvw : handleVisiters { w with errorFilters := [] } f s1 = handleVisiters w f s1 := rfl
      rw [hvw]
      have hv1 := handleVisiters_head_fails w v vs e0 hw hfail f s1
      rcases hv : handleVisiters w f s1 with ⟨rv, sv, lv⟩
      rw [hv] at hv1
      simp only at hv1
      subst hv1
      simp [handleErrorFilters, handleErrorFilters.loop]

theorem loop_without_filters {σ : Type} (w : walk σ) (hctx : ∀ k s, w.ctx k s = false)
    (v : Visiter σ) (vs : List (Visiter σ)) (e0 : Err) (hw : w.visiters = v :: vs)
    (hfail : ∀ f s, (v f s).1 = some e0) (entries : List TarEntry) :
    ∀ (k : Nat) (ps : List GoString) (s : σ),
      (∃ j f x, Event.visit j f x ∈ (WalkTarReader.loop w none k ps entries s).2.2) →
      (WalkTarReader.loop { w with errorFilters := [] } none k ps entries s).1 = some e0 := by
  have hctx2 : ∀ k s, ({ w with errorFilters := [] } : walk σ).ctx k s = false := hctx
  induction entries with
  | nil =>
    rintro k ps s ⟨j, f, x, hm⟩
    simp [WalkTarReader.loop, hctx] at hm
  | cons ent rest ih =>
    rintro k ps s ⟨j, f, x, hm⟩
    rcases body_without_filters w v vs e0 hw hfail ps ent.reader ent.header s with h | ⟨h1, ⟨ps1, h2⟩, h3⟩
    · rcases hb : WalkTarReader.body { w with errorFilters := [] } ps (some ent.reader)
        (some ent.header) s with ⟨c, sb, lb⟩
      rw [hb] at h
      simp only at h
      subst h
      rw [loop_cons_exit _ hctx2 none k ps ent rest s _ sb lb hb]
    · rcases hb : WalkTarReader.body w ps (some ent.reader) (some ent.header) s with ⟨c, sb, lb⟩
      rw [hb] at h1 h2 h3
      simp only at h2 h3
      subst h2
      rw [loop_cons_next _ hctx2 none k ps ent rest s ps1 sb lb h1]
      rw [loop_cons_next _ hctx none k ps ent rest s ps1 sb lb hb] at hm
      simp only [List.mem_cons, List.mem_append] at hm
      rcases hm with hm | hm | hm
      · cases hm
      · exact absurd hm (h3 j f x)
      · exact ih (k + 1) ps1 sb ⟨j, f, x, hm⟩

/-- C7: for a well-formed tar stream and a walk that is never cancelled,
`WalkTarReader` returns the error `e` exactly when the loop reaches an entry (all
iterations before it ended without returning) that is handed to the visitors,
the visitor pipeline fails on it with `e`, and no error filter returns nil for
`(entry path, e)`; the calls made by the walk then end with those made for that
entry, so no later entry is read, checked or visited.  With a first error filter
that always returns nil the result is nil; and when the first visitor always
fails with `e0` and the walk calls a visitor at all, the same walk without error
filters returns `e0`. -/
theorem WalkTarReader_error_iff {σ : Type} (w : walk σ) (hctx : ∀ k s, w.ctx k s = false)
    (entries : List TarEntry) (s : σ) :
    (∀ e : Err, (WalkTarReader w { entries := entries, failure := none } s).1 = some e ↔
      ∃ pre ent post ps1 s1 l1, entries = pre ++ ent :: post ∧
        WalkTarReader.scan w [] pre s = some (ps1, s1, l1) ∧
        HasAnyPrefix ps1 ent.file = none ∧
        (handleChecker w ent.file s1).1 = none ∧
        (handleVisiters w ent.file (handleChecker w ent.file s1).2.1).1 = some e ∧
        ∀ r ∈ (runAll (w.errorFilters.map (fun c => c ent.file.Path (some e)))
          (handleVisiters w ent.file (handleChecker w ent.file s1).2.1).2.1).1, r ≠ none) ∧
    (∀ e pre ent post ps1 s1 l1, entries = pre ++ ent :: post →
        WalkTarReader.scan w [] pre s = some (ps1, s1, l1) →
        HasAnyPrefix ps1 ent.file = none →
        (handleChecker w ent.file s1).1 = none →
        (handleVisiters w ent.file (handleChecker w ent.file s1).2.1).1 = some e →
        (handleErrorFilters w ent.file.Path (some e)
          (handleVisiters w ent.file (handleChecker w ent.file s1).2.1).2.1).1 ≠ none →
        (WalkTarReader w { entries := entries, failure := none } s).2.2
          = l1 ++ Event.next (some ent.header) none ::
              ((handleChecker w ent.file s1).2.2 ++
                (handleVisiters w ent.file (handleChecker w ent.file s1).2.1).2.2 ++
                (handleErrorFilters w ent.file.Path (some e)
                  (handleVisiters w ent.file (handleChecker w ent.file s1).2.1).2.1).2.2)) ∧
    (∀ flt rest, w.errorFilters = flt :: rest → (∀ p err s1, (flt p err s1).1 = none) →
        (WalkTarReader w { entries := entries, failure := none } s).1 = none) ∧
    (∀ v vs e0, w.visiters = v :: vs → (∀ f s1, (v f s1).1 = some e0) →
        (∃ j f x, Event.visit j f x ∈
          (WalkTarReader w { entries := entries, failure := none } s).2.2) →
        (WalkTarReader { w with errorFilters := [] }
          { entries := entries, failure := none } s).1 = some e0) := by
  refine ⟨?_, ?_, ?_, ?_⟩
  · intro e
    constructor
    · intro h
      obtain ⟨pre, ent, post, ps1, s1, l1, s2, l2, h1, h2, h3⟩ :=
        loop_exit_split w hctx entries 0 [] s e h
      obtain ⟨hp, hc, e2, he, hv, hf, -, -⟩ := (body_exit_iff w ps1 ent s1 _ s2 l2).mp h3
      cases he
      exact ⟨pre, ent, post, ps1, s1, l1, h1, h2, hp, hc, hv,
        (handleErrorFilters_ne_none_iff w _ e _).mp hf⟩
    · rintro ⟨pre, ent, post, ps1, s1, l1, h1, h2, hp, hc, hv, hf⟩
      have hb := (body_exit_iff w ps1 ent s1 (some e) _ _).mpr
        ⟨hp, hc, e, rfl, hv, (handleErrorFilters_ne_none_iff w _ e _).mpr hf, rfl, rfl⟩
      subst h1
      unfold WalkTarReader
      simp only
      rw [loop_of_split w hctx none 0 [] s pre post ent ps1 s1 l1 _ _ _ h2 hb]
  · intro e pre ent post ps1 s1 l1 h1 h2 hp hc hv hf
    have hb := (body_exit_iff w ps1 ent s1 (some e) _ _).mpr
      ⟨hp, hc, e, rfl, hv, hf, rfl, rfl⟩
    subst h1
    unfold WalkTarReader
    simp only
    rw [loop_of_split w hctx none 0 [] s pre post ent ps1 s1 l1 _ _ _ h2 hb]
  · intro flt rest hw hflt
    cases hres : (WalkTarReader w { entries := entries, failure := none } s).1 with
    | none => rfl
    | some e =>
      exfalso
      obtain ⟨pre, ent, post, ps1, s1, l1, s2, l2, -, -, h3⟩ :=
        loop_exit_split w hctx entries 0 [] s e hres
      obtain ⟨-, -, e2, -, -, hf, -, -⟩ := (body_exit_iff w ps1 ent s1 _ s2 l2).mp h3
      exact hf (handleErrorFilters_head_nil w flt rest hw hflt _ _ _)
  · intro v vs e0 hw hfail hvis
    exact loop_without_filters w hctx v vs e0 hw hfail entries 0 [] s hvis

/-- The walk with a visitor that always fails and an error filter that always
returns nil ends with nil on the three-entry stream, and without the filter it
returns the visitor's error. -/
theorem WalkTarReader_error_iff_witness :
    (WalkTarReader (failWalk (Err.custom 7)) skipStream ()).1 = none ∧
    (WalkTarReader { failWalk (Err.custom 7) with errorFilters := [] } skipStream ()).1
      = some (Err.custom 7) :=
  ⟨(WalkTarReader_error_iff (failWalk (Err.custom 7)) (fun _ _ => rfl)
      skipStream.entries ()).2.2.1 suppressAll [] rfl (fun _ _ _ => rfl),
   (WalkTarReader_error_iff (failWalk (Err.custom 7)) (fun _ _ => rfl)
      skipStream.entries ()).2.2.2 (failingVisiter (Err.custom 7)) [] (Err.custom 7) rfl
      (fun _ _ => rfl)
      ⟨0, (dirEntry "d0/skips/d3/skip").file, some (Err.custom 7), by decide⟩⟩

/-! ## Theorems: where the code departs from the specification -/

/-- C1, evaluated on the code: the single checker `SkipDir("skip")` returns
`ErrCheckSkipDir` for the directory `d0/skips/d3/skip`; the later entry
`d0/skips/d3/skip/f5`, whose path starts with that path, is nevertheless checked
and visited, and its path is among those the visitor recorded. -/
theorem WalkTarReader_visits_below_skipped_dir :
    (handleChecker skipWalk (dirEntry "d0/skips/d3/skip").file []).1
      = some Err.ErrCheckSkipDir ∧
    stringsHasPrefix (gostr "d0/skips/d3/skip/f5") (gostr "d0/skips/d3/skip") = true ∧
    Event.check 0 (fileEntry "d0/skips/d3/skip/f5" "f5").file none
      ∈ (WalkTarReader skipWalk skipStream []).2.2 ∧
    Event.visit 0 (fileEntry "d0/skips/d3/skip/f5" "f5").file none
      ∈ (WalkTarReader skipWalk skipStream []).2.2 ∧
    gostr "d0/skips/d3/skip/f5" ∈ (WalkTarReader skipWalk skipStream []).2.1 := by
  decide

/-- C2, evaluated on the code: the path of `d0/skips/d3/z2` does not start with
the pruned path and the checker proceeds on it, yet the walk drops it: the
visitor records `d0/skips/d3/skip/f5` only, and the calls of the walk hold
nothing for `z2` but the read of its header. -/
theorem WalkTarReader_drops_sibling_of_skipped_dir :
    stringsHasPrefix (gostr "d0/skips/d3/z2") (gostr "d0/skips/d3/skip") = false ∧
    (handleChecker skipWalk (fileEntry "d0/skips/d3/z2" "z2").file []).1 = none ∧
    (WalkTarReader skipWalk skipStream []).1 = none ∧
    (WalkTarReader skipWalk skipStream []).2.1 = [gostr "d0/skips/d3/skip/f5"] ∧
    (WalkTarReader skipWalk skipStream []).2.2
      = [Event.next (some (dirEntry "d0/skips/d3/skip").header) none,
         Event.check 0 (dirEntry "d0/skips/d3/skip").file (some Err.ErrCheckSkipDir),
         Event.next (some (fileEntry "d0/skips/d3/skip/f5" "f5").header) none,
         Event.check 0 (fileEntry "d0/skips/d3/skip/f5" "f5").file none,
         Event.visit 0 (fileEntry "d0/skips/d3/skip/f5" "f5").file none,
         Event.next (some (fileEntry "d0/skips/d3/z2" "z2").header) none,
         Event.next none (some Err.EOF)] := by
  decide

/-- C8, evaluated on the code: with a visitor that always fails with an error and
an error filter that always returns nil, the disk callback `walkFn` returns the
visitor's error for every entry and calls no error filter, although the filter
pipeline returns nil for that error and the tar loop, on the same walk, goes on
to the next entry. -/
theorem walkFn_returns_visitor_error (lstat : GoString → Except Err FileInfo)
    (pathname : GoString) (fi : FileInfo) :
    walkFn (failWalk (Err.custom 7)) lstat pathname (some fi) ()
      = (some (Err.custom 7), (),
          [Event.visit 0 (File.disk { path := pathname, info := fi }) (some (Err.custom 7))]) ∧
    (handleErrorFilters (failWalk (Err.custom 7)) pathname (some (Err.custom 7)) ()).1 = none ∧
    ∀ (rd : Reader) (hdr : Header),
      (WalkTarReader.body (failWalk (Err.custom 7)) [] (some rd) (some hdr) ()).1
        = Ctl.next [] := by
  refine ⟨rfl, rfl, fun rd hdr => rfl⟩

/-- C9, evaluated on the code: on the archive entry `d0/f1` with content `f1`,
the first `f.Opener()()` returns `f1` and the second returns no bytes, after two
reads of the underlying reader; on the disk entry `/d0/f1`, two `f.Opener()()`
calls read the file twice.  Only calls of one and the same closure share a
read. -/
theorem Opener_twice_reads_twice :
    (tarOnceOpener.call contentEntry.Opener contentEntry.reader).1 = (gostr "f1", none) ∧
    (tarOnceOpener.call contentEntry.Opener
      (tarOnceOpener.call contentEntry.Opener contentEntry.reader).2.2).1 = ([], none) ∧
    (tarOnceOpener.call contentEntry.Opener
      (tarOnceOpener.call contentEntry.Opener contentEntry.reader).2.2).2.2.reads = 2 ∧
    (fileOnceOpener.call diskEntry.path diskEntry.Opener
      (fileOnceOpener.call diskEntry.path diskEntry.Opener oneFileDisk).2.2).2.2.reads = 2 ∧
    (tarOnceOpener.call (tarOnceOpener.call contentEntry.Opener contentEntry.reader).2.1
      (tarOnceOpener.call contentEntry.Opener contentEntry.reader).2.2).1 = (gostr "f1", none) ∧
    (tarOnceOpener.call (tarOnceOpener.call contentEntry.Opener contentEntry.reader).2.1
      (tarOnceOpener.call contentEntry.Opener contentEntry.reader).2.2).2.2.reads = 1 := by
  decide

/-- C10, evaluated on the code: on the archive entry `d0/f1` with content `f1`
and the checksum `sum8`, `Hash` on the fresh entry returns `97`, the hexadecimal
digest of `f1`; once `f.Opener()()` has been called and has returned `f1`, `Hash`
returns `00`, the digest of the empty content. -/
theorem Hash_after_Opener_digests_nothing :
    (tarfile.Hash contentEntry sum8 contentEntry.reader).1 = (gostr "97", none) ∧
    (tarOnceOpener.call contentEntry.Opener contentEntry.reader).1 = (gostr "f1", none) ∧
    hexEncodeToString (sum8.algorithm (gostr "f1")) = gostr "97" ∧
    (tarfile.Hash contentEntry sum8
      (tarOnceOpener.call contentEntry.Opener contentEntry.reader).2.2).1
      = (gostr "00", none) ∧
    hexEncodeToString (sum8.algorithm []) = gostr "00" := by
  decide

/-! ## Theorems: the built-in checkers -/

theorem hasAnySubs_loop_nil_iff (has : GoString → GoString → Bool) (path : GoString)
    (subs : List GoString) :
    hasAnySubs.loop has path subs = none ↔ ∃ c ∈ subs, has path c = true := by
  induction subs with
  | nil => simp [hasAnySubs.loop]
  | cons c rest ih =>
    by_cases h : has path c = true
    · simp [hasAnySubs.loop, h]
    · simp [hasAnySubs.loop, h, ih]

theorem hasAnySubs_loop_cases (has : GoString → GoString → Bool) (path : GoString)
    (subs : List GoString) :
    hasAnySubs.loop has path subs = none ∨
      hasAnySubs.loop has path subs = some Err.ErrCheckFail := by
  induction subs with
  | nil => simp [hasAnySubs.loop]
  | cons c rest ih =>
    by_cases h : has path c = true
    · simp [hasAnySubs.loop, h]
    · simpa [hasAnySubs.loop, h] using ih

theorem hasAnySubs_nil_iff (has : GoString → GoString → Bool) (subs : List GoString)
    (f : File) :
    hasAnySubs has subs f = none ↔ subs = [] ∨ ∃ c ∈ subs, has f.Path c = true := by
  unfold hasAnySubs
  by_cases h : subs = []
  · simp [h]
  · have h2 : ¬ subs.length = 0 := by simpa using h
    simp [h2, h, hasAnySubs_loop_nil_iff]

theorem hasAnySubs_cases (has : GoString → GoString → Bool) (subs : List GoString)
    (f : File) :
    hasAnySubs has subs f = none ∨ hasAnySubs has subs f = some Err.ErrCheckFail := by
  unfold hasAnySubs
  split_ifs
  · exact Or.inl rfl
  · exact hasAnySubs_loop_cases has f.Path subs

theorem hasAllSubs_nil_iff (has : GoString → GoString → Bool) (subs : List GoString)
    (f : File) :
    hasAllSubs has subs f = none ↔ ∀ c ∈ subs, has f.Path c = true := by
  induction subs with
  | nil => simp [hasAllSubs]
  | cons c rest ih =>
    by_cases h : has f.Path c = true
    · simp [hasAllSubs, h, ih]
    · simp [hasAllSubs, h]

theorem hasAllSubs_cases (has : GoString → GoString → Bool) (subs : List GoString)
    (f : File) :
    hasAllSubs has subs f = none ∨ hasAllSubs has subs f = some Err.ErrCheckFail := by
  induction subs with
  | nil => simp [hasAllSubs]
  | cons c rest ih =>
    by_cases h : has f.Path c = true
    · simpa [hasAllSubs, h] using ih
    · simp [hasAllSubs, h]

/-- C14: `SkipDir(name)` returns `ErrCheckSkipDir` exactly when the entry is a
directory and the base name of its path is `name`; in every other case it
returns nil, so it never returns `ErrCheckFail`, and a non-directory entry whose
base name is `name` proceeds. -/
theorem SkipDir_outcome (name : GoString) (f : File) :
    (SkipDir name f = some Err.ErrCheckSkipDir ↔
      f.FileInfo.IsDir = true ∧ pathBase f.Path = name) ∧
    (SkipDir name f = none ↔ ¬ (f.FileInfo.IsDir = true ∧ pathBase f.Path = name)) ∧
    SkipDir name f ≠ some Err.ErrCheckFail ∧
    (f.FileInfo.IsDir = false → SkipDir name f = none) := by
  unfold SkipDir
  by_cases h : f.FileInfo.IsDir = true ∧ pathBase f.Path = name
  · obtain ⟨h1, h2⟩ := h
    simp [h1, h2]
  · have h2 : (f.FileInfo.IsDir && pathBase f.Path == name) = false := by
      rcases hd : f.FileInfo.IsDir with _ | _
      · simp
      · simp only [hd, true_and] at h
        simpa using h
    simp [h2, h]

/-- C15: `HasAnyPrefix(c1, ..., cn)` returns nil exactly when `n = 0` or some
`ci` is a prefix of the path of the entry, and `ErrCheckFail` otherwise, so
never `ErrCheckSkipDir`; the same holds of `HasAnySuffix` with suffixes; and
`HasPrefix(c)`, `HasSuffix(c)` are the forms with the one candidate `c`. -/
theorem HasAny_outcome (cs : List GoString) (c : GoString) (f : File) :
    (HasAnyPrefix cs f = none ↔ cs = [] ∨ ∃ c ∈ cs, c <+: f.Path) ∧
    (HasAnyPrefix cs f = some Err.ErrCheckFail ↔ ¬ (cs = [] ∨ ∃ c ∈ cs, c <+: f.Path)) ∧
    HasAnyPrefix cs f ≠ some Err.ErrCheckSkipDir ∧
    (HasAnySuffix cs f = none ↔ cs = [] ∨ ∃ c ∈ cs, c <:+ f.Path) ∧
    (HasAnySuffix cs f = some Err.ErrCheckFail ↔ ¬ (cs = [] ∨ ∃ c ∈ cs, c <:+ f.Path)) ∧
    HasAnySuffix cs f ≠ some Err.ErrCheckSkipDir ∧
    HasPrefix c = HasAnyPrefix [c] ∧ HasSuffix c = HasAnySuffix [c] ∧
    (HasPrefix c f = none ↔ c <+: f.Path) ∧ (HasSuffix c f = none ↔ c <:+ f.Path) := by
  have hp : HasAnyPrefix cs f = none ↔ cs = [] ∨ ∃ c ∈ cs, c <+: f.Path := by
    simp [HasAnyPrefix, hasAnySubs_nil_iff, stringsHasPrefix]
  have hs : HasAnySuffix cs f = none ↔ cs = [] ∨ ∃ c ∈ cs, c <:+ f.Path := by
    simp [HasAnySuffix, hasAnySubs_nil_iff, stringsHasSuffix]
  have hpc := hasAnySubs_cases stringsHasPrefix cs f
  have hsc := hasAnySubs_cases stringsHasSuffix cs f
  refine ⟨hp, ?_, ?_, hs, ?_, ?_, rfl, rfl, ?_, ?_⟩
  · rw [← hp]
    rcases hpc with h | h <;> simp [HasAnyPrefix, h]
  · rcases hpc with h | h <;> simp [HasAnyPrefix, h]
  · rw [← hs]
    rcases hsc with h | h <;> simp [HasAnySuffix, h]
  · rcases hsc with h | h <;> simp [HasAnySuffix, h]
  · simp [HasPrefix, HasAnyPrefix, hasAnySubs_nil_iff, stringsHasPrefix]
  · simp [HasSuffix, HasAnySuffix, hasAnySubs_nil_iff, stringsHasSuffix]

/-- C16: `HasAllPrefix(c1, ..., cn)` returns nil exactly when every `ci` is a
prefix of the path of the entry, so also for `n = 0`, and `ErrCheckFail`
otherwise; the same holds of `HasAllSuffix` with suffixes. -/
theorem HasAll_outcome (cs : List GoString) (f : File) :
    (HasAllPrefix cs f = none ↔ ∀ c ∈ cs, c <+: f.Path) ∧
    (HasAllPrefix cs f = some Err.ErrCheckFail ↔ ¬ ∀ c ∈ cs, c <+: f.Path) ∧
    (HasAllSuffix cs f = none ↔ ∀ c ∈ cs, c <:+ f.Path) ∧
    (HasAllSuffix cs f = some Err.ErrCheckFail ↔ ¬ ∀ c ∈ cs, c <:+ f.Path) ∧
    HasAllPrefix [] f = none ∧ HasAllSuffix [] f = none := by
  have hp : HasAllPrefix cs f = none ↔ ∀ c ∈ cs, c <+: f.Path := by
    simp [HasAllPrefix, hasAllSubs_nil_iff, stringsHasPrefix]
  have hs : HasAllSuffix cs f = none ↔ ∀ c ∈ cs, c <:+ f.Path := by
    simp [HasAllSuffix, hasAllSubs_nil_iff, stringsHasSuffix]
  have hpc := hasAllSubs_cases stringsHasPrefix cs f
  have hsc := hasAllSubs_cases stringsHasSuffix cs f
  refine ⟨hp, ?_, hs, ?_, rfl, rfl⟩
  · rw [← hp]
    rcases hpc with h | h <;> simp [HasAllPrefix, h]
  · rw [← hs]
    rcases hsc with h | h <;> simp [HasAllSuffix, h]


theorem SkipDir_cases (name : GoString) (f : File) :
    (SkipDir name f = none ∧ ¬ (f.FileInfo.IsDir = true ∧ pathBase f.Path = name)) ∨
      (SkipDir name f = some Err.ErrCheckSkipDir ∧
        (f.FileInfo.IsDir = true ∧ pathBase f.Path = name)) := by
  unfold SkipDir
  by_cases h : f.FileInfo.IsDir = true ∧ pathBase f.Path = name
  · right
    obtain ⟨h1, h2⟩ := h
    simp [h1, h2]
  · left
    have h2 : (f.FileInfo.IsDir && pathBase f.Path == name) = false := by
      rcases hd : f.FileInfo.IsDir with _ | _
      · simp
      · simp only [hd, true_and] at h
        simpa using h
    simp [h2, h]

theorem IsRegular_of_IsDir (f : File) (h : f.FileInfo.IsDir = true) :
    IsRegular f = some Err.ErrCheckFail := by
  unfold FileInfo.IsDir FileMode.IsDir at h
  simp [IsRegular, FileMode.IsRegular, h]

theorem IsRegular_cases (f : File) :
    (IsRegular f = none ∧ f.FileInfo.Mode.IsRegular = true) ∨
      (IsRegular f = some Err.ErrCheckFail ∧ f.FileInfo.Mode.IsRegular = false) := by
  unfold IsRegular
  rcases h : f.FileInfo.Mode.IsRegular with _ | _ <;> simp

/-- C20: with the checkers `[IsRegular, SkipDir(name)]` the pipeline never returns
`ErrCheckSkipDir`: on a directory `IsRegular` returns `ErrCheckFail` and
`SkipDir` is not called.  With the checkers `[SkipDir(name), IsRegular]` it
returns `ErrCheckSkipDir` exactly for the directories whose base name is
`name`. -/
theorem pruning_depends_on_checker_order {σ : Type} (w : walk σ) (name : GoString)
    (f : File) (s : σ) :
    (handleChecker (regularThenSkip w name) f s).1 ≠ some Err.ErrCheckSkipDir ∧
    (f.FileInfo.IsDir = true →
      handleChecker (regularThenSkip w name) f s
        = (some Err.ErrCheckFail, s, [Event.check 0 f (some Err.ErrCheckFail)])) ∧
    ((handleChecker (skipThenRegular w name) f s).1 = some Err.ErrCheckSkipDir ↔
      f.FileInfo.IsDir = true ∧ pathBase f.Path = name) := by
  have hskip := SkipDir_cases name f
  refine ⟨?_, ?_, ?_⟩
  · rcases IsRegular_cases f with ⟨h, hr⟩ | ⟨h, hr⟩
    · rcases hskip with ⟨h2, hd⟩ | ⟨h2, hd⟩
      · simp [handleChecker, regularThenSkip, handleChecker.loop, Checker.ofPure, h, h2]
      · exfalso
        have := IsRegular_of_IsDir f hd.1
        rw [h] at this
        cases this
    · simp [handleChecker, regularThenSkip, handleChecker.loop, Checker.ofPure, h]
  · intro hd
    simp [handleChecker, regularThenSkip, handleChecker.loop, Checker.ofPure,
      IsRegular_of_IsDir f hd]
  · rcases hskip with ⟨h2, hd⟩ | ⟨h2, hd⟩
    · rcases IsRegular_cases f with ⟨h, hr⟩ | ⟨h, hr⟩ <;>
        simp [handleChecker, skipThenRegular, handleChecker.loop, Checker.ofPure, h, h2, hd]
    · simp [handleChecker, skipThenRegular, handleChecker.loop, Checker.ofPure, h2, hd]

/-! ## Theorems: registration, header errors, the disk callback -/

/-- C17: `Check`, `OnVisit` and `FilterError`, given a non-nil function, append it
at the end of their own pipeline and leave what was there, the two other
pipelines and the context as they are; given nil they change nothing.  A
function registered twice is in the pipeline twice, and the pipeline calls the
checkers in the order of their registration: a second registered checker is
called after the first, at position 1, also when it is the first one again. -/
theorem registration_appends {σ : Type} (w : walk σ) (c c2 : Checker σ) (v : Visiter σ)
    (e : ErrorFilter σ) (ctx : Nat → σ → Bool) (f : File) (s : σ) :
    ((w.Check (some c)).checkers = w.checkers ++ [c] ∧
      (w.Check (some c)).visiters = w.visiters ∧
      (w.Check (some c)).errorFilters = w.errorFilters ∧ (w.Check (some c)).ctx = w.ctx) ∧
    ((w.OnVisit (some v)).visiters = w.visiters ++ [v] ∧
      (w.OnVisit (some v)).checkers = w.checkers ∧
      (w.OnVisit (some v)).errorFilters = w.errorFilters ∧ (w.OnVisit (some v)).ctx = w.ctx) ∧
    ((w.FilterError (some e)).errorFilters = w.errorFilters ++ [e] ∧
      (w.FilterError (some e)).checkers = w.checkers ∧
      (w.FilterError (some e)).visiters = w.visiters ∧
      (w.FilterError (some e)).ctx = w.ctx) ∧
    (w.Check none = w ∧ w.OnVisit none = w ∧ w.FilterError none = w) ∧
    (((w.Check (some c)).Check (some c)).checkers = w.checkers ++ [c, c] ∧
      ((w.OnVisit (some v)).OnVisit (some v)).visiters = w.visiters ++ [v, v] ∧
      ((w.FilterError (some e)).FilterError (some e)).errorFilters
        = w.errorFilters ++ [e, e]) ∧
    ((c f s).1 = none →
      handleChecker (((NewWithContext ctx).Check (some c)).Check (some c2)) f s
        = ((c2 f (c f s).2).1, (c2 f (c f s).2).2,
            [Event.check 0 f none, Event.check 1 f (c2 f (c f s).2).1])) ∧
    ((c f s).1 = none →
      (handleChecker (((NewWithContext ctx).Check (some c)).Check (some c)) f s).2.2
        = [Event.check 0 f none, Event.check 1 f (c f (c f s).2).1]) := by
  have key : ∀ c3 : Checker σ, (c f s).1 = none →
      handleChecker (((NewWithContext ctx).Check (some c)).Check (some c3)) f s
        = ((c3 f (c f s).2).1, (c3 f (c f s).2).2,
            [Event.check 0 f none, Event.check 1 f (c3 f (c f s).2).1]) := by
    intro c3 h
    rcases h1 : c f s with ⟨r, s1⟩
    rw [h1] at h
    simp only at h
    subst h
    rcases h2 : c3 f s1 with ⟨r2, s2⟩
    cases r2 <;>
      simp [handleChecker, walk.Check, NewWithContext, handleChecker.loop, h1, h2]
  refine ⟨⟨rfl, rfl, rfl, rfl⟩, ⟨rfl, rfl, rfl, rfl⟩, ⟨rfl, rfl, rfl, rfl⟩, ⟨rfl, rfl, rfl⟩,
    ⟨?_, ?_, ?_⟩, key c2, ?_⟩
  · simp [walk.Check]
  · simp [walk.OnVisit]
  · simp [walk.FilterError]
  · intro h
    rw [key c h]

/-- C18, evaluated on the code: the first header read of the stream fails with
an I/O error for which the error filter of the walk returns nil; the walk
nevertheless returns an error, the read error wrapped, and it calls no error
filter. -/
theorem WalkTarReader_header_error_not_filtered :
    (handleErrorFilters (failWalk (Err.custom 7)) [] (some (Err.custom 5)) ()).1 = none ∧
    WalkTarReader (failWalk (Err.custom 7)) brokenStream ()
      = (some (Err.wrap (Err.custom 5) "fail to read the tarball"), (),
          [Event.next none (some (Err.custom 5))]) ∧
    (WalkTarReader (failWalk (Err.custom 7)) brokenStream ()).1 ≠ none ∧
    (WalkTarReader (failWalk (Err.custom 7)) brokenStream ()).1 ≠ some (Err.custom 5) := by
  decide

/-- C19, the claim fails on the code: for a directory entry, with no checker
registered and a visitor that returns `filepath.SkipDir`, the outcome of the
checker pipeline is nil, not `ErrCheckSkipDir`, and yet the callback returns
`filepath.SkipDir` to the backend. -/
theorem walkFn_SkipDir_without_checker_signal :
    (handleChecker
      ((NewWithContext (fun _ (_ : Unit) => false)).OnVisit (some skipDirVisiter))
      (File.disk { path := gostr "/d0/d1", info := dirInfo "/d0/d1" }) ()).1 = none ∧
    (walkFn ((NewWithContext (fun _ (_ : Unit) => false)).OnVisit (some skipDirVisiter))
      (fun _ => .error (Err.custom 2)) (gostr "/d0/d1") (some (dirInfo "/d0/d1")) ()).1
      = some Err.SkipDir := by
  decide

/-- C19, as amended: when the checker pipeline returns `ErrCheckSkipDir` the
callback returns `filepath.SkipDir`; when it returns any other non-nil error the
callback returns nil.  In both cases the calls made are those of the checkers
alone, so no visitor and no error filter runs and the error of the checker
reaches neither.  Hence, for an entry on which the checkers do not all proceed,
the callback returns `filepath.SkipDir` exactly when the checker outcome is
`ErrCheckSkipDir`. -/
theorem walkFn_translates_checker_outcome {σ : Type} (w : walk σ)
    (lstat : GoString → Except Err FileInfo) (pathname : GoString) (fi : Option FileInfo)
    (f : File) (s : σ) (hf : NewDiskFile lstat pathname fi = .ok f) :
    ((handleChecker w f s).1 = some Err.ErrCheckSkipDir →
      walkFn w lstat pathname fi s
        = (some Err.SkipDir, (handleChecker w f s).2.1, (handleChecker w f s).2.2)) ∧
    (∀ e, (handleChecker w f s).1 = some e → e ≠ Err.ErrCheckSkipDir →
      walkFn w lstat pathname fi s
        = (none, (handleChecker w f s).2.1, (handleChecker w f s).2.2)) ∧
    ((handleChecker w f s).1 ≠ none → ∀ ev ∈ (walkFn w lstat pathname fi s).2.2,
      ∃ i r, ev = Event.check i f r) ∧
    ((handleChecker w f s).1 ≠ none →
      ((walkFn w lstat pathname fi s).1 = some Err.SkipDir ↔
        (handleChecker w f s).1 = some Err.ErrCheckSkipDir)) := by
  obtain ⟨oc, hl, -, -⟩ := handleChecker_log w f s
  unfold walkFn
  rw [hf]
  simp only
  rcases hc : handleChecker w f s with ⟨rc, s1, l1⟩
  rw [hc] at hl
  simp only at hl
  cases rc with
  | some err =>
    by_cases he : err = Err.ErrCheckSkipDir
    · subst he
      simp only [if_true]
      refine ⟨fun _ => trivial, ?_, ?_, ?_⟩
      · intro e h1 h2
        cases h1
        exact absurd rfl h2
      · intro _ ev hev
        rw [hl] at hev
        obtain ⟨j, r, -, h⟩ := (mem_checkLog f ev oc 0).mp hev
        exact ⟨_, _, h⟩
      · simp
    · simp only [if_neg he]
      refine ⟨?_, fun _ _ _ => trivial, ?_, ?_⟩
      · intro h
        cases h
        exact absurd rfl he
      · intro _ ev hev
        rw [hl] at hev
        obtain ⟨j, r, -, h⟩ := (mem_checkLog f ev oc 0).mp hev
        exact ⟨_, _, h⟩
      · simp [he]
  | none => simp

/-- The callback on the directory `/d0/d1`, for the walk with the checker
`SkipDir("d1")`, returns `filepath.SkipDir` and calls the checker only. -/
theorem walkFn_translates_checker_outcome_witness :
    walkFn (skipThenRegular skipWalk (gostr "d1")) (fun _ => .error (Err.custom 2))
      (gostr "/d0/d1") (some (dirInfo "/d0/d1")) []
      = (some Err.SkipDir, [],
          [Event.check 0 (File.disk { path := gostr "/d0/d1", info := dirInfo "/d0/d1" })
            (some Err.ErrCheckSkipDir)]) :=
  (walkFn_translates_checker_outcome (skipThenRegular skipWalk (gostr "d1"))
    (fun _ => .error (Err.custom 2)) (gostr "/d0/d1") (some (dirInfo "/d0/d1"))
    (File.disk { path := gostr "/d0/d1", info := dirInfo "/d0/d1" }) [] rfl).1 (by decide)

/-! ## Theorems: the entries handed to the visitors -/

theorem runAll_mem {σ : Type} (cbs : List (σ → error × σ)) :
    ∀ (s : σ) (r : error), r ∈ (runAll cbs s).1 → ∃ cb ∈ cbs, ∃ s1, r = (cb s1).1 := by
  induction cbs with
  | nil => intro s r h; simp [runAll] at h
  | cons cb rest ih =>
    intro s r h
    simp only [runAll, List.mem_cons] at h
    rcases h with h | h
    · exact ⟨cb, by simp, s, h⟩
    · obtain ⟨cb2, h1, s1, h2⟩ := ih _ r h
      exact ⟨cb2, by simp [h1], s1, h2⟩

theorem handleVisiters_never_fail {σ : Type} (w : walk σ)
    (hv : ∀ v ∈ w.visiters, ∀ f s, (v f s).1 = none) (f : File) (s : σ) :
    (handleVisiters w f s).1 = none ∧
      (handleVisiters w f s).2.2 = visitLog f 0 (List.replicate w.visiters.length none) := by
  have h1 : (handleVisiters w f s).1 = none := by
    rw [handleVisiters, handleVisiters_loop_nil_iff]
    intro r hr
    obtain ⟨cb, hcb, s1, h⟩ := runAll_mem _ s r hr
    obtain ⟨v, hvm, rfl⟩ := List.mem_map.mp hcb
    rw [h]
    exact hv v hvm f s1
  refine ⟨h1, ?_⟩
  obtain ⟨k, -, -, hl, hr⟩ := handleVisiters_loop_run f w.visiters 0 s
  rcases hr with ⟨-, h2, h3⟩ | ⟨e, j, h4, -, -⟩
  · rw [handleVisiters, hl, h3, h2]
  · rw [handleVisiters] at h1
    rw [h1] at h4
    cases h4

theorem visited_checkLog (j : Nat) (f : File) (outs : List error) :
    ∀ a, (checkLog f a outs).filterMap (Event.visited j) = [] := by
  induction outs with
  | nil => intro a; rfl
  | cons o rest ih => intro a; simp [checkLog, Event.visited, ih]

theorem visited_filterLog (j : Nat) (p : GoString) (e : error) (outs : List error) :
    ∀ a, (filterLog p e a outs).filterMap (Event.visited j) = [] := by
  induction outs with
  | nil => intro a; rfl
  | cons o rest ih => intro a; simp [filterLog, Event.visited, ih]

theorem visited_visitLog (j : Nat) (f : File) (outs : List error) :
    ∀ a, (visitLog f a outs).filterMap (Event.visited j)
      = if a ≤ j ∧ j < a + outs.length then [f] else [] := by
  induction outs with
  | nil =>
    intro a
    have : ¬ (a ≤ j ∧ j < a + 0) := by omega
    simp [visitLog, this]
  | cons o rest ih =>
    intro a
    by_cases h : a = j
    · subst h
      have h1 : ¬ (a + 1 ≤ a ∧ a < a + 1 + rest.length) := by omega
      simp [visitLog, Event.visited, ih, h1]
    · have h1 : (a + 1 ≤ j ∧ j < a + 1 + rest.length) ↔
          (a ≤ j ∧ j < a + (o :: rest).length) := by
        simp only [List.length_cons]; omega
      simp only [visitLog, List.filterMap_cons, Event.visited, if_neg h, ih]
      by_cases h2 : a + 1 ≤ j ∧ j < a + 1 + rest.length
      · rw [if_pos h2, if_pos (h1.mp h2)]
      · rw [if_neg h2, if_neg (fun h3 => h2 (h1.mpr h3))]

theorem walkFn_regularOnly {σ : Type} (w : walk σ) (lstat : GoString → Except Err FileInfo)
    (pathname : GoString) (fi : FileInfo) (s : σ) :
    walkFn (regularOnly w) lstat pathname (some fi) s
      = if fi.Mode.IsRegular = true then
          ((handleVisiters w (File.disk { path := pathname, info := fi }) s).1,
           (handleVisiters w (File.disk { path := pathname, info := fi }) s).2.1,
           Event.check 0 (File.disk { path := pathname, info := fi }) none ::
             (handleVisiters w (File.disk { path := pathname, info := fi }) s).2.2)
        else (none, s,
          [Event.check 0 (File.disk { path := pathname, info := fi }) (some Err.ErrCheckFail)]) := by
  have hvw : ∀ f s, handleVisiters (regularOnly w) f s = handleVisiters w f s :=
    fun _ _ => rfl
  rcases IsRegular_cases (File.disk { path := pathname, info := fi }) with ⟨h, hr⟩ | ⟨h, hr⟩
  · have hr2 : fi.Mode.IsRegular = true := hr
    rw [if_pos hr2]
    simp only [walkFn, NewDiskFile, handleChecker, regularOnly, handleChecker.loop,
      Checker.ofPure, h]
    rcases hv : handleVisiters.loop (File.disk { path := pathname, info := fi }) 0 w.visiters s
      with ⟨rv, s2, l2⟩
    cases rv <;> simp [handleVisiters, hv]
  · have hr2 : ¬ fi.Mode.IsRegular = true := by
      have : fi.Mode.IsRegular = false := hr
      simp [this]
    rw [if_neg hr2]
    simp [walkFn, NewDiskFile, handleChecker, regularOnly, handleChecker.loop,
      Checker.ofPure, h]

theorem walkFnAll_regularOnly {σ : Type} (w : walk σ)
    (lstat : GoString → Except Err FileInfo)
    (hv : ∀ v ∈ w.visiters, ∀ f s, (v f s).1 = none) (calls : List (GoString × FileInfo)) :
    ∀ s : σ, (walkFnAll (regularOnly w) lstat calls s).1 = List.replicate calls.length none ∧
      ∀ j, j < w.visiters.length →
        (walkFnAll (regularOnly w) lstat calls s).2.2.filterMap (Event.visited j)
          = (calls.filter (fun c => c.2.Mode.IsRegular)).map
              (fun c => File.disk { path := c.1, info := c.2 }) := by
  induction calls with
  | nil => intro s; exact ⟨rfl, fun _ _ => rfl⟩
  | cons c rest ih =>
    intro s
    obtain ⟨pathname, fi⟩ := c
    have hw := walkFn_regularOnly w lstat pathname fi s
    obtain ⟨hn, hl⟩ := handleVisiters_never_fail w hv (File.disk { path := pathname, info := fi }) s
    rcases hcall : walkFn (regularOnly w) lstat pathname (some fi) s with ⟨r, s1, l1⟩
    rw [hcall] at hw
    obtain ⟨ih1, ih2⟩ := ih s1
    rcases hrest : walkFnAll (regularOnly w) lstat rest s1 with ⟨rs, s2, l2⟩
    rw [hrest] at ih1 ih2
    simp only at ih1 ih2
    simp only [walkFnAll, hcall, hrest, List.length_cons, List.replicate_succ]
    by_cases hreg : fi.Mode.IsRegular = true
    · rw [if_pos hreg, hn, hl] at hw
      simp only [Prod.mk.injEq] at hw
      obtain ⟨rfl, -, rfl⟩ := hw
      refine ⟨by rw [ih1], ?_⟩
      intro j hj
      have hj2 : 0 ≤ j ∧ j < 0 + (List.replicate w.visiters.length (none : error)).length := by
        simp [hj]
      simp only [List.filterMap_append, List.filterMap_cons, Event.visited,
        visited_visitLog, if_pos hj2, ih2 j hj, List.filter_cons, hreg, if_true,
        List.map_cons, List.singleton_append]
    · rw [if_neg hreg] at hw
      simp only [Prod.mk.injEq] at hw
      obtain ⟨rfl, -, rfl⟩ := hw
      refine ⟨by rw [ih1], ?_⟩
      intro j hj
      have hreg2 : fi.Mode.IsRegular = false := by simpa using hreg
      simp [Event.visited, ih2 j hj, List.filter_cons, hreg2]

/-- C13: `IsRegular()` returns nil exactly when the file mode of the entry is
regular, and `ErrCheckFail` otherwise, so for directories and symbolic links.
The disk callback with `IsRegular()` as its only checker returns nil for an
entry that is not regular, calling no visitor, so it never asks the backend to
prune a directory; for a regular entry it calls the visitors and returns what
they return.  Hence, whatever entries the backend hands over and in whatever
order, when no visitor fails every call returns nil and each visitor is handed
exactly the regular files among them. -/
theorem IsRegular_visits_regular_files {σ : Type} (w : walk σ)
    (lstat : GoString → Except Err FileInfo) (pathname : GoString) (fi : FileInfo) (f : File)
    (s : σ) (calls : List (GoString × FileInfo)) :
    (IsRegular f = none ↔ f.FileInfo.Mode.IsRegular = true) ∧
    (IsRegular f = some Err.ErrCheckFail ↔ f.FileInfo.Mode.IsRegular = false) ∧
    (f.FileInfo.IsDir = true → IsRegular f = some Err.ErrCheckFail) ∧
    (f.FileInfo.Mode.symlink = true → IsRegular f = some Err.ErrCheckFail) ∧
    (fi.Mode.IsRegular = false →
      walkFn (regularOnly w) lstat pathname (some fi) s
        = (none, s, [Event.check 0 (File.disk { path := pathname, info := fi })
            (some Err.ErrCheckFail)])) ∧
    (fi.Mode.IsRegular = true →
      walkFn (regularOnly w) lstat pathname (some fi) s
        = ((handleVisiters w (File.disk { path := pathname, info := fi }) s).1,
           (handleVisiters w (File.disk { path := pathname, info := fi }) s).2.1,
           Event.check 0 (File.disk { path := pathname, info := fi }) none ::
             (handleVisiters w (File.disk { path := pathname, info := fi }) s).2.2)) ∧
    ((∀ v ∈ w.visiters, ∀ f1 s1, (v f1 s1).1 = none) →
      (walkFnAll (regularOnly w) lstat calls s).1 = List.replicate calls.length none ∧
      ∀ j, j < w.visiters.length →
        (walkFnAll (regularOnly w) lstat calls s).2.2.filterMap (Event.visited j)
          = (calls.filter (fun c => c.2.Mode.IsRegular)).map
              (fun c => File.disk { path := c.1, info := c.2 })) := by
  refine ⟨?_, ?_, IsRegular_of_IsDir f, ?_, ?_, ?_, ?_⟩
  · rcases IsRegular_cases f with ⟨h, hr⟩ | ⟨h, hr⟩ <;> simp [h, hr]
  · rcases IsRegular_cases f with ⟨h, hr⟩ | ⟨h, hr⟩ <;> simp [h, hr]
  · intro h
    simp [IsRegular, FileMode.IsRegular, h]
  · intro h
    rw [walkFn_regularOnly]
    simp [h]
  · intro h
    rw [walkFn_regularOnly]
    simp [h]
  · intro hv
    exact walkFnAll_regularOnly w lstat hv calls s

/-! ## Theorems: cancellation and stream order -/

theorem loop_cancelled {σ : Type} (w : walk σ) (failure : error) (k : Nat)
    (ps : List GoString) (entries : List TarEntry) (s : σ) (h : w.ctx k s = true) :
    WalkTarReader.loop w failure k ps entries s = (none, s, []) := by
  cases entries <;> simp [WalkTarReader.loop, h]

theorem loop_cons_next_at {σ : Type} (w : walk σ) (failure : error) (k : Nat)
    (ps : List GoString) (ent : TarEntry) (rest : List TarEntry) (s : σ)
    (hk : w.ctx k s = false) (ps1 : List GoString) (s1 : σ) (l1 : List Event)
    (hb : WalkTarReader.body w ps (some ent.reader) (some ent.header) s
      = (Ctl.next ps1, s1, l1)) :
    WalkTarReader.loop w failure k ps (ent :: rest) s
      = ((WalkTarReader.loop w failure (k + 1) ps1 rest s1).1,
         (WalkTarReader.loop w failure (k + 1) ps1 rest s1).2.1,
         Event.next (some ent.header) none ::
           (l1 ++ (WalkTarReader.loop w failure (k + 1) ps1 rest s1).2.2)) := by
  simp [WalkTarReader.loop, hk, hb]

theorem loop_of_scan_until {σ : Type} (w : walk σ) (failure : error)
    (rest : List TarEntry) (pre : List TarEntry) :
    ∀ (k : Nat) (ps : List GoString) (s : σ) (ps1 : List GoString) (s1 : σ)
      (l1 : List Event),
      (∀ j, k ≤ j → j < k + pre.length → ∀ s2, w.ctx j s2 = false) →
      WalkTarReader.scan w ps pre s = some (ps1, s1, l1) →
      WalkTarReader.loop w failure k ps (pre ++ rest) s
        = ((WalkTarReader.loop w failure (k + pre.length) ps1 rest s1).1,
           (WalkTarReader.loop w failure (k + pre.length) ps1 rest s1).2.1,
           l1 ++ (WalkTarReader.loop w failure (k + pre.length) ps1 rest s1).2.2) := by
  induction pre with
  | nil =>
    intro k ps s ps1 s1 l1 _ h
    simp only [WalkTarReader.scan, Option.some.injEq, Prod.mk.injEq] at h
    obtain ⟨rfl, rfl, rfl⟩ := h
    simp
  | cons ent pre ih =>
    intro k ps s ps1 s1 l1 hlt h
    rcases hb : WalkTarReader.body w ps (some ent.reader) (some ent.header) s with ⟨c, sb, lb⟩
    cases c with
    | exit r => simp [WalkTarReader.scan, hb] at h
    | next psb =>
      simp only [WalkTarReader.scan, hb] at h
      rcases hs : WalkTarReader.scan w psb pre sb with _ | ⟨ps2, s2, l2⟩
      · simp [hs] at h
      · simp only [hs, Option.some.injEq, Prod.mk.injEq] at h
        obtain ⟨rfl, rfl, rfl⟩ := h
        have hk : w.ctx k s = false := hlt k (le_refl _) (by simp) s
        have hlt2 : ∀ j, k + 1 ≤ j → j < k + 1 + pre.length → ∀ s2, w.ctx j s2 = false := by
          intro j h1 h2 s2
          exact hlt j (by omega) (by simp only [List.length_cons]; omega) s2
        rw [List.cons_append, loop_cons_next_at w failure k ps ent (pre ++ rest) s hk psb sb lb hb,
          ih (k + 1) psb sb _ _ _ hlt2 hs]
        have : k + 1 + pre.length = k + (ent :: pre).length := by simp; omega
        simp [this]

/-- C11: the tar loop looks at the cancellation signal at the start of every
iteration, before it reads a header: an iteration that finds the walk cancelled
returns nil and makes no call, whatever entries are left.  So a walk cancelled
before it starts returns nil and has read no header and called no checker and no
visitor; and a walk that first finds itself cancelled after `k` entries, the
iterations over them having ended without returning, returns nil with the
caller state and the calls of those `k` entries only: nothing after the `k`-th
entry is read, checked or visited. -/
theorem WalkTarReader_cancellation {σ : Type} (w : walk σ) (failure : error) :
    (∀ k ps entries s, w.ctx k s = true →
      WalkTarReader.loop w failure k ps entries s = (none, s, [])) ∧
    (∀ entries s, w.ctx 0 s = true →
      WalkTarReader w { entries := entries, failure := failure } s = (none, s, [])) ∧
    (∀ pre post s ps1 s1 l1, (∀ j, j < pre.length → ∀ s2, w.ctx j s2 = false) →
      WalkTarReader.scan w [] pre s = some (ps1, s1, l1) →
      w.ctx pre.length s1 = true →
      WalkTarReader w { entries := pre ++ post, failure := failure } s = (none, s1, l1)) := by
  refine ⟨fun k ps entries s h => loop_cancelled w failure k ps entries s h,
    fun entries s h => loop_cancelled w failure 0 [] entries s h, ?_⟩
  intro pre post s ps1 s1 l1 hlt hscan hk
  have h := loop_of_scan_until w failure post pre 0 [] s ps1 s1 l1
    (fun j _ h2 s2 => hlt j (by omega) s2) hscan
  unfold WalkTarReader
  simp only
  rw [h, Nat.zero_add, loop_cancelled w failure pre.length ps1 post s1 hk]
  simp

theorem runAll_mem_of_mem {σ : Type} (cbs : List (σ → error × σ)) :
    ∀ (s : σ) (cb : σ → error × σ), cb ∈ cbs → ∃ s1, (cb s1).1 ∈ (runAll cbs s).1 := by
  induction cbs with
  | nil => intro s cb h; simp at h
  | cons c rest ih =>
    intro s cb h
    rcases List.mem_cons.mp h with rfl | h
    · exact ⟨s, by simp [runAll]⟩
    · obtain ⟨s1, h1⟩ := ih (c s).2 cb h
      exact ⟨s1, by simp [runAll, h1]⟩

theorem handleChecker_some_mem {σ : Type} (w : walk σ) (f : File) (s : σ) (e : Err)
    (h : (handleChecker w f s).1 = some e) :
    ∃ c ∈ w.checkers, ∃ s1, (c f s1).1 = some e := by
  obtain ⟨k, -, -, -, hr⟩ := handleChecker_loop_run f w.checkers 0 s
  rcases hr with ⟨h1, -, -⟩ | ⟨e2, j, h1, -, h3⟩
  · rw [handleChecker] at h; rw [h] at h1; cases h1
  · rw [handleChecker] at h
    rw [h] at h1
    cases h1
    have hm : some e ∈ (runAll ((w.checkers.take k).map (fun c => c f)) s).1 := by
      rw [h3]; simp
    obtain ⟨cb, hcb, s1, h4⟩ := runAll_mem _ s _ hm
    obtain ⟨c, hc, rfl⟩ := List.mem_map.mp hcb
    exact ⟨c, List.mem_of_mem_take hc, s1, h4.symm⟩

theorem handleChecker_nil_all {σ : Type} (w : walk σ) (f : File) (s : σ)
    (h : (handleChecker w f s).1 = none) :
    ∀ c ∈ w.checkers, ∃ s1, (c f s1).1 = none := by
  intro c hc
  have h1 := (handleChecker_loop_nil_iff f w.checkers 0 s).mp h
  obtain ⟨s1, h2⟩ := runAll_mem_of_mem (w.checkers.map (fun c => c f)) s (fun s => c f s)
    (List.mem_map.mpr ⟨c, hc, rfl⟩)
  exact ⟨s1, h1 _ h2⟩

theorem handleChecker_some_event {σ : Type} (w : walk σ) (f : File) (s : σ) (e : Err)
    (h : (handleChecker w f s).1 = some e) :
    ∃ i, Event.check i f (some e) ∈ (handleChecker w f s).2.2 := by
  obtain ⟨k, -, -, hl, hr⟩ := handleChecker_loop_run f w.checkers 0 s
  rcases hr with ⟨h1, -, -⟩ | ⟨e2, j, h1, -, h3⟩
  · rw [handleChecker] at h; rw [h] at h1; cases h1
  · rw [handleChecker] at h
    rw [h] at h1
    cases h1
    refine ⟨0 + j, ?_⟩
    rw [handleChecker, hl, h3, mem_checkLog]
    exact ⟨j, some e, by simp, rfl⟩

theorem handleVisiters_some_event {σ : Type} (w : walk σ) (f : File) (s : σ) (e : Err)
    (h : (handleVisiters w f s).1 = some e) :
    ∃ i, Event.visit i f (some e) ∈ (handleVisiters w f s).2.2 := by
  obtain ⟨k, -, -, hl, hr⟩ := handleVisiters_loop_run f w.visiters 0 s
  rcases hr with ⟨h1, -, -⟩ | ⟨e2, j, h1, -, h3⟩
  · rw [handleVisiters] at h; rw [h] at h1; cases h1
  · rw [handleVisiters] at h
    rw [h] at h1
    cases h1
    refine ⟨0 + j, ?_⟩
    rw [handleVisiters, hl, h3, mem_visitLog]
    exact ⟨j, some e, by simp, rfl⟩

theorem handleVisiters_nil_log {σ : Type} (w : walk σ) (f : File) (s : σ)
    (h : (handleVisiters w f s).1 = none) :
    (handleVisiters w f s).2.2 = visitLog f 0 (List.replicate w.visiters.length none) := by
  obtain ⟨k, -, -, hl, hr⟩ := handleVisiters_loop_run f w.visiters 0 s
  rcases hr with ⟨-, h2, h3⟩ | ⟨e, j, h4, -, -⟩
  · rw [handleVisiters, hl, h3, h2]
  · rw [handleVisiters] at h
    rw [h] at h4
    cases h4

theorem body_clean {σ : Type} (w : walk σ) (ent : TarEntry) (s : σ)
    (hskip : ∀ ev ∈ (WalkTarReader.body w [] (some ent.reader) (some ent.header) s).2.2,
      ev.isSkipSubtree = false)
    (hvis : ∀ ev ∈ (WalkTarReader.body w [] (some ent.reader) (some ent.header) s).2.2,
      ev.isFailedVisit = false) :
    ∃ s2 l pre, WalkTarReader.body w [] (some ent.reader) (some ent.header) s
        = (Ctl.next [], s2, l) ∧
      (∀ rest, proceedingEntries w (ent :: rest) s = pre ++ proceedingEntries w rest s2) ∧
      ∀ j, j < w.visiters.length → l.filterMap (Event.visited j) = pre := by
  revert hskip hvis
  unfold WalkTarReader.body
  simp only [NewTarFile, proceedingEntries, TarEntry.file]
  generalize File.tar { reader := ent.reader, header := ent.header } = f
  have hp : (HasAnyPrefix [] f).isSome = false := by
    simp [HasAnyPrefix, hasAnySubs]
  simp only [hp, Bool.false_eq_true, if_false]
  obtain ⟨oc, hl, -, -⟩ := handleChecker_log w f s
  have hce := handleChecker_some_event w f s
  rcases hc : handleChecker w f s with ⟨rc, s1, l1⟩
  rw [hc] at hl hce
  simp only at hl hce
  cases rc with
  | some err =>
    by_cases he : err = Err.ErrCheckSkipDir
    · subst he
      simp only [if_true]
      intro hskip _
      obtain ⟨i, hi⟩ := hce _ rfl
      have := hskip _ hi
      simp [Event.isSkipSubtree] at this
    · simp only [if_neg he]
      intro _ _
      refine ⟨s1, l1, [], rfl, ?_, ?_⟩
      · intro rest; simp
      · intro j _
        rw [hl, visited_checkLog]
  | none =>
    simp only
    have hve := handleVisiters_some_event w f s1
    have hvn := handleVisiters_nil_log w f s1
    rcases hv : handleVisiters w f s1 with ⟨rv, s2, l2⟩
    rw [hv] at hve hvn
    simp only at hve hvn
    cases rv with
    | some err =>
      simp only
      obtain ⟨i, hi⟩ := hve _ rfl
      rcases hf : handleErrorFilters w f.Path (some err) s2 with ⟨rf, s3, l3⟩
      cases rf <;>
      · simp only
        intro _ hvis
        have := hvis (Event.visit i f (some err)) (by simp [hi])
        simp [Event.isFailedVisit] at this
    | none =>
      simp only
      intro _ _
      refine ⟨s2, l1 ++ l2, [f], rfl, ?_, ?_⟩
      · intro rest; simp
      · intro j hj
        have hj2 : 0 ≤ j ∧ j < 0 + (List.replicate w.visiters.length (none : error)).length := by
          simp [hj]
        rw [List.filterMap_append, hl, visited_checkLog, hvn rfl, visited_visitLog, if_pos hj2]
        rfl

theorem loop_clean {σ : Type} (w : walk σ) (hctx : ∀ k s, w.ctx k s = false)
    (entries : List TarEntry) :
    ∀ (k : Nat) (s : σ),
      (∀ ev ∈ (WalkTarReader.loop w none k [] entries s).2.2, ev.isSkipSubtree = false) →
      (∀ ev ∈ (WalkTarReader.loop w none k [] entries s).2.2, ev.isFailedVisit = false) →
      (WalkTarReader.loop w none k [] entries s).1 = none ∧
      ∀ j, j < w.visiters.length →
        (WalkTarReader.loop w none k [] entries s).2.2.filterMap (Event.visited j)
          = proceedingEntries w entries s := by
  induction entries with
  | nil =>
    intro k s _ _
    simp [WalkTarReader.loop, hctx, Event.visited, proceedingEntries]
  | cons ent rest ih =>
    intro k s hskip hvis
    have hsub : ∀ ev ∈ (WalkTarReader.body w [] (some ent.reader) (some ent.header) s).2.2,
        ev ∈ (WalkTarReader.loop w none k [] (ent :: rest) s).2.2 := by
      intro ev hev
      rcases hb : WalkTarReader.body w [] (some ent.reader) (some ent.header) s with ⟨c, sb, lb⟩
      rw [hb] at hev
      cases c with
      | exit r =>
        rw [loop_cons_exit w hctx none k [] ent rest s r sb lb hb]
        simp [hev]
      | next psb =>
        rw [loop_cons_next w hctx none k [] ent rest s psb sb lb hb]
        simp [hev]
    obtain ⟨s2, l, pre, hb, hpre, hl⟩ := body_clean w ent s
      (fun ev hev => hskip ev (hsub ev hev)) (fun ev hev => hvis ev (hsub ev hev))
    have hloop := loop_cons_next w hctx none k [] ent rest s [] s2 l hb
    rw [hloop] at hskip hvis
    rw [hloop]
    obtain ⟨ih1, ih2⟩ := ih (k + 1) s2
      (fun ev hev => hskip ev (by simp [hev])) (fun ev hev => hvis ev (by simp [hev]))
    refine ⟨ih1, ?_⟩
    intro j hj
    simp only [List.filterMap_cons, Event.visited, List.filterMap_append, hl j hj, ih2 j hj,
      hpre rest]

theorem proceedingEntries_of_pure {σ : Type} (w : walk σ) (s0 : σ) (entries : List TarEntry)
    (hpure : ∀ c ∈ w.checkers, ∀ ent ∈ entries, ∀ s1 s2, (c ent.file s1).1 = (c ent.file s2).1) :
    ∀ s, proceedingEntries w entries s
      = (entries.map TarEntry.file).filter
          (fun f => w.checkers.all (fun c => (c f s0).1.isNone)) := by
  induction entries with
  | nil => intro s; rfl
  | cons ent rest ih =>
    intro s
    have ih2 := ih (fun c hc e he s1 s2 => hpure c hc e (by simp [he]) s1 s2)
    have hp := fun c hc s1 s2 => hpure c hc ent (by simp) s1 s2
    by_cases hc : (handleChecker w ent.file s).1 = none
    · have hall : w.checkers.all (fun c => (c ent.file s0).1.isNone) = true := by
        rw [List.all_eq_true]
        intro c hcm
        obtain ⟨s3, h3⟩ := handleChecker_nil_all w ent.file s hc c hcm
        rw [hp c hcm s0 s3, h3]
        rfl
      simp [proceedingEntries, hc, hall, ih2]
    · obtain ⟨e, he⟩ := Option.ne_none_iff_exists'.mp hc
      obtain ⟨c, hcm, s3, h3⟩ := handleChecker_some_mem w ent.file s e he
      have hall : w.checkers.all (fun c => (c ent.file s0).1.isNone) = false := by
        rw [Bool.eq_false_iff]
        intro h
        have h4 := (List.all_eq_true.mp h) c hcm
        rw [hp c hcm s0 s3, h3] at h4
        simp at h4
      simp [proceedingEntries, hc, hall, ih2]

/-- C12: take a well-formed tar stream and a walk that is never cancelled, in
the course of which no checker returns `ErrCheckSkipDir` and no visitor fails.
Then `WalkTarReader` returns nil, and the entries handed to each registered
visitor are, in stream order and each once, exactly the entries of the stream
on which the checker pipeline returns nil.  When the outcome of every checker on
the entries of the stream depends on the entry alone, these are the entries of
the stream on which every checker returns nil. -/
theorem WalkTarReader_visits_in_stream_order {σ : Type} (w : walk σ)
    (hctx : ∀ k s, w.ctx k s = false) (entries : List TarEntry) (s : σ)
    (hskip : ∀ ev ∈ (WalkTarReader w { entries := entries, failure := none } s).2.2,
      ev.isSkipSubtree = false)
    (hvis : ∀ ev ∈ (WalkTarReader w { entries := entries, failure := none } s).2.2,
      ev.isFailedVisit = false) :
    (WalkTarReader w { entries := entries, failure := none } s).1 = none ∧
    (∀ j, j < w.visiters.length →
      (WalkTarReader w { entries := entries, failure := none } s).2.2.filterMap
          (Event.visited j)
        = proceedingEntries w entries s) ∧
    ((∀ c ∈ w.checkers, ∀ ent ∈ entries, ∀ s1 s2, (c ent.file s1).1 = (c ent.file s2).1) →
      proceedingEntries w entries s
        = (entries.map TarEntry.file).filter
            (fun f => w.checkers.all (fun c => (c f s).1.isNone))) :=
  ⟨(loop_clean w hctx entries 0 s hskip hvis).1, (loop_clean w hctx entries 0 s hskip hvis).2,
    fun hpure => proceedingEntries_of_pure w s entries hpure s⟩

/-- The walk with the checker `SkipDir("skip")` over the stream `d0/a`, `d0/d1`,
`d0/d1/b`, where no directory is named `skip`: it returns nil and its visitor is
handed the three entries, in stream order. -/
theorem WalkTarReader_visits_in_stream_order_witness :
    (WalkTarReader skipWalk plainStream []).1 = none ∧
    (WalkTarReader skipWalk plainStream []).2.2.filterMap (Event.visited 0)
      = [(fileEntry "d0/a" "a").file, (dirEntry "d0/d1").file, (fileEntry "d0/d1/b" "b").file] ∧
    (WalkTarReader skipWalk plainStream []).2.1
      = [gostr "d0/a", gostr "d0/d1", gostr "d0/d1/b"] :=
  ⟨(WalkTarReader_visits_in_stream_order skipWalk (fun _ _ => rfl) plainStream.entries []
      (by decide) (by decide)).1,
   ((WalkTarReader_visits_in_stream_order skipWalk (fun _ _ => rfl) plainStream.entries []
      (by decide) (by decide)).2.1 0 (by decide)).trans (by decide),
   by decide⟩

end Walker
